import Mathlib

set_option maxHeartbeats 1000000

namespace NodeNetwork

/-- A bare-metal node, as exposed by the bare-metal service; identified by
id or name. -/
structure Node where
  id : String
  name : String
deriving DecidableEq

/-- A virtual network resource with an id and a name
(source: objects returned by the network service). -/
structure Network where
  id : String
  name : String
deriving DecidableEq

/-- A network port: bound to one network via network_id, carrying a name.
Port ids are modelled as naturals so that freshly created ports can take
the next free id. -/
structure NetworkPort where
  id : Nat
  name : String
  network_id : String
deriving DecidableEq

/-- A physical (bare-metal) port of a node; its internal_info mapping may
carry the key tenant_vif_port_id, modelled as an optional field. -/
structure BaremetalPort where
  id : String
  node_id : String
  tenant_vif_port_id : Option Nat
deriving DecidableEq

/-- The joint state held by the two external services the module drives. -/
structure World where
  nodes : List Node
  networks : List Network
  networkPorts : List NetworkPort
  baremetalPorts : List BaremetalPort
  nextPortId : Nat
deriving DecidableEq

/-- Modelled from the spec: Collaborator A must expose
find_node(ref) -> Node | NotFound; the reference is a name or an id. -/
def find_node (w : World) (ref : String) : Option Node :=
  w.nodes.find? (fun n => n.name = ref || n.id = ref)

/-- Modelled from the spec: Collaborator A must expose
list_ports(node_id, with_details) -> [PhysicalPort], in fetch order. -/
def baremetalPortsOf (w : World) (node_id : String) : List BaremetalPort :=
  w.baremetalPorts.filter (fun bp => bp.node_id = node_id)

/-- Modelled from the spec: resolving a tenant_vif_port_id to its Network
Port (network.find_port with ignore_missing), none when it does not resolve. -/
def find_port (w : World) (vif : Nat) : Option NetworkPort :=
  w.networkPorts.find? (fun p => p.id = vif)

/-- Modelled from the spec: network.ports(name=...) lists the network ports
carrying the given name, in discovery order. -/
def ports_named (w : World) (name : String) : List NetworkPort :=
  w.networkPorts.filter (fun p => p.name = name)

/-- Modelled from the spec: create_port(name, network_id, device_owner)
creates a fresh network port on the given network. -/
def create_port (w : World) (name : String) (network_id : String) :
    NetworkPort × World :=
  let p : NetworkPort := ⟨w.nextPortId, name, network_id⟩
  (p, { w with networkPorts := w.networkPorts ++ [p],
               nextPortId := w.nextPortId + 1 })

/-- Modelled from the spec: delete_port(port_id) removes the network port
with the given id. -/
def delete_port (w : World) (pid : Nat) : World :=
  { w with networkPorts := w.networkPorts.filter (fun p => p.id ≠ pid) }

/-- The effect of detach_vif on one physical port: clear the VIF when the
port belongs to the node and carries it. -/
def detachUpdate (node_id : String) (vif : Nat) (bp : BaremetalPort) :
    BaremetalPort :=
  if bp.node_id = node_id ∧ bp.tenant_vif_port_id = some vif
  then { bp with tenant_vif_port_id := none } else bp

/-- Modelled from the spec: detach_vif(node, vif_id) clears the
tenant_vif_port_id of the node's physical ports carrying the given VIF. -/
def detach_vif (w : World) (node_id : String) (vif : Nat) : World :=
  { w with baremetalPorts := w.baremetalPorts.map (detachUpdate node_id vif) }

/-- The effect of attach_vif on one physical port: set the VIF when the
port is the requested port of the node. -/
def attachUpdate (node_id : String) (vif : Nat) (port_id : String)
    (bp : BaremetalPort) : BaremetalPort :=
  if bp.node_id = node_id ∧ bp.id = port_id
  then { bp with tenant_vif_port_id := some vif } else bp

/-- Modelled from the spec: attach_vif(node, vif_id, port_id) sets the
tenant_vif_port_id of the named physical port of the node. -/
def attach_vif (w : World) (node_id : String) (vif : Nat) (port_id : String) :
    World :=
  { w with baremetalPorts :=
      w.baremetalPorts.map (attachUpdate node_id vif port_id) }

/-- The deterministic network-port name used by the module:
"%s-%s" % (node_name, network_name). -/
def portName (nodeName netName : String) : String :=
  nodeName ++ "-" ++ netName

/-- NodeNetworkModule._find_network_port: first network port carrying the
deterministic name, if any. -/
def find_network_port (w : World) (nodeName netName : String) :
    Option NetworkPort :=
  (ports_named w (portName nodeName netName)).head?

/-- NodeNetworkModule._find_matching_baremetal_port: first physical port
whose tenant_vif_port_id equals the network port's id. -/
def find_matching_baremetal_port (bps : List BaremetalPort)
    (np : NetworkPort) : Option BaremetalPort :=
  bps.find? (fun bp => bp.tenant_vif_port_id = some np.id)

/-- NodeNetworkModule._find_free_baremetal_port: first physical port whose
internal_info lacks the tenant_vif_port_id key. -/
def find_free_baremetal_port (bps : List BaremetalPort) :
    Option BaremetalPort :=
  bps.find? (fun bp => bp.tenant_vif_port_id = none)

/-- NodeNetworkModule._get_currently_attached_networks: resolve each
physical port's tenant_vif_port_id to a network port, then to its network;
unresolvable references are skipped. -/
def currently_attached_networks (w : World) (bps : List BaremetalPort)
    (nets : List Network) : List Network :=
  bps.filterMap (fun bp =>
    match bp.tenant_vif_port_id with
    | none => none
    | some vif =>
      match find_port w vif with
      | none => none
      | some np => nets.find? (fun n => n.id = np.network_id))

/-- One external API call issued by the module, recorded in call order. -/
inductive Event where
  | detachVifCall (node_id : String) (vif : Nat)
  | deletePortCall (pid : Nat)
  | createPortCall (pid : Nat) (name : String) (network_id : String)
  | attachVifCall (node_id : String) (vif : Nat) (port_id : String)
deriving DecidableEq

/-- Replaying one recorded call against a world. -/
def applyEvent (w : World) (e : Event) : World :=
  match e with
  | .detachVifCall nid v => detach_vif w nid v
  | .deletePortCall pid => delete_port w pid
  | .createPortCall _ name netid => (create_port w name netid).2
  | .attachVifCall nid v pid => attach_vif w nid v pid

/-- Replaying a recorded call sequence against a world. -/
def applyEvents (w : World) (tr : List Event) : World :=
  tr.foldl applyEvent w

/-- The detach phase of NodeNetworkModule.run: for each network to detach,
locate its deterministically named network port; if present and some
physical port of the snapshot carries it, detach the VIF and delete the
port; otherwise skip. Returns the final world, the changed flag
contribution, and the calls issued. -/
def detachLoop (node : Node) (bps : List BaremetalPort) :
    World → List Network → World × Bool × List Event
  | w, [] => (w, false, [])
  | w, net :: rest =>
    match find_network_port w node.name net.name with
    | none => detachLoop node bps w rest
    | some np =>
      match find_matching_baremetal_port bps np with
      | none => detachLoop node bps w rest
      | some _ =>
        let w1 := delete_port (detach_vif w node.id np.id) np.id
        let r := detachLoop node bps w1 rest
        (r.1, true, Event.detachVifCall node.id np.id ::
                    Event.deletePortCall np.id :: r.2.2)

/-- Result of the attach phase: success with world, changed flag and trace,
or the fail_json hard stop naming the node id and the network name, with
the world and trace at the moment of failure. -/
inductive AttachResult where
  | ok (w : World) (changed : Bool) (tr : List Event)
  | exhausted (node_id : String) (net_name : String) (w : World)
      (tr : List Event)
deriving DecidableEq

/-- The attach phase of NodeNetworkModule.run: for each network to attach,
re-fetch the node's physical ports, locate or create the deterministically
named network port, skip when a physical port already carries it, otherwise
attach to the first free physical port or fail when none is free. -/
def attachLoop (node : Node) : World → List Network → AttachResult
  | w, [] => .ok w false []
  | w, net :: rest =>
    let bps := baremetalPortsOf w node.id
    match find_network_port w node.name net.name with
    | some np =>
      match find_matching_baremetal_port bps np with
      | some _ => attachLoop node w rest
      | none =>
        match find_free_baremetal_port bps with
        | none => .exhausted node.id net.name w []
        | some bp =>
          match attachLoop node (attach_vif w node.id np.id bp.id) rest with
          | .ok wf _ tr =>
              .ok wf true (Event.attachVifCall node.id np.id bp.id :: tr)
          | .exhausted a b wf tr =>
              .exhausted a b wf (Event.attachVifCall node.id np.id bp.id :: tr)
    | none =>
      let c := create_port w (portName node.name net.name) net.id
      let ev := Event.createPortCall c.1.id c.1.name c.1.network_id
      match find_matching_baremetal_port bps c.1 with
      | some _ =>
        match attachLoop node c.2 rest with
        | .ok wf ch tr => .ok wf ch (ev :: tr)
        | .exhausted a b wf tr => .exhausted a b wf (ev :: tr)
      | none =>
        match find_free_baremetal_port bps with
        | none => .exhausted node.id net.name c.2 [ev]
        | some bp =>
          match attachLoop node (attach_vif c.2 node.id c.1.id bp.id) rest with
          | .ok wf _ tr =>
              .ok wf true (ev :: Event.attachVifCall node.id c.1.id bp.id :: tr)
          | .exhausted a b wf tr =>
              .exhausted a b wf
                (ev :: Event.attachVifCall node.id c.1.id bp.id :: tr)

/-- desired_network_objects: networks whose name or id occurs in the
desired list. -/
def desiredObjsOf (w : World) (desired : List String) : List Network :=
  w.networks.filter (fun n => desired.contains n.name || desired.contains n.id)

/-- current_network_objects: networks derived from the node's physical
ports. -/
def currentObjsOf (w : World) (node : Node) : List Network :=
  currently_attached_networks w (baremetalPortsOf w node.id) w.networks

/-- networks_to_detach: currently attached networks whose id is not a
desired id. -/
def toDetachOf (w : World) (node : Node) (desired : List String) :
    List Network :=
  (currentObjsOf w node).filter
    (fun n => !(((desiredObjsOf w desired).map Network.id).contains n.id))

/-- networks_to_attach: desired networks whose id is not a currently
attached id. -/
def toAttachOf (w : World) (node : Node) (desired : List String) :
    List Network :=
  (desiredObjsOf w desired).filter
    (fun n => !(((currentObjsOf w node).map Network.id).contains n.id))

/-- Outcome of NodeNetworkModule.run: node not found (raised before any
mutation), port exhaustion (fail_json), or success with the changed flag. -/
inductive RunResult where
  | notFound
  | exhausted (node_id : String) (net_name : String) (w : World)
      (tr : List Event)
  | ok (changed : Bool) (w : World) (tr : List Event)
deriving DecidableEq

/-- NodeNetworkModule.run: resolve the node, normalise the desired list,
snapshot the node's physical ports and the networks, compute the diff,
run the detach phase then the attach phase. -/
def run (w : World) (node_ref : String)
    (networks_param : Option (List String)) : RunResult :=
  match find_node w node_ref with
  | none => .notFound
  | some node =>
    let desired := networks_param.getD []
    let r1 := detachLoop node (baremetalPortsOf w node.id) w
      (toDetachOf w node desired)
    match attachLoop node r1.1 (toAttachOf w node desired) with
    | .ok w2 ch2 tr2 => .ok (r1.2.1 || ch2) w2 (r1.2.2 ++ tr2)
    | .exhausted nid nn w2 tr2 => .exhausted nid nn w2 (r1.2.2 ++ tr2)

/-- The set of network ids currently derived from the node's physical
ports, the quantity the convergence invariant speaks about. -/
def attachedNetworkIds (w : World) (node : Node) : List String :=
  (currentObjsOf w node).map Network.id

theorem string_append_left_cancel {s a b : String} (h : s ++ a = s ++ b) :
    a = b := by
  have hd := congrArg String.data h
  simp only [String.data_append] at hd
  exact String.ext (List.append_cancel_left hd)

theorem portName_inj {n a b : String} (h : portName n a = portName n b) :
    a = b := by
  have h2 : (n ++ "-") ++ a = (n ++ "-") ++ b := h
  exact string_append_left_cancel h2

theorem find?_key_eq_some {α β : Type} [DecidableEq β] {f : α → β}
    {l : List α} {a : α} (hn : (l.map f).Nodup) (ha : a ∈ l) {k : β}
    (hk : f a = k) : l.find? (fun x => f x = k) = some a := by
  induction l with
  | nil => cases ha
  | cons x xs ih =>
    simp only [List.map_cons, List.nodup_cons] at hn
    by_cases hx : f x = k
    · have hax : a = x := by
        rcases List.mem_cons.mp ha with h1 | h1
        · exact h1
        · have hfa : f a ∈ List.map f xs := List.mem_map_of_mem f h1
          rw [hk, ← hx] at hfa
          exact absurd hfa hn.1
      simp [List.find?_cons, hx, hax]
    · have hax : a ≠ x := fun h1 => hx (h1 ▸ hk)
      have ha2 : a ∈ xs := by
        rcases List.mem_cons.mp ha with h1 | h1
        · exact absurd h1 hax
        · exact h1
      simp [List.find?_cons, hx]
      exact ih hn.2 ha2

theorem find_network_port_eq_find? (w : World) (a b : String) :
    find_network_port w a b =
      w.networkPorts.find? (fun p => p.name = portName a b) := by
  simp [find_network_port, ports_named, List.filter_head?]

theorem find_network_port_mem {w : World} {a b : String} {np : NetworkPort}
    (h : find_network_port w a b = some np) :
    np ∈ w.networkPorts ∧ np.name = portName a b := by
  rw [find_network_port_eq_find?] at h
  refine ⟨List.mem_of_find?_eq_some h, ?_⟩
  simpa using List.find?_some h

theorem find_network_port_of_mem {w : World} {np : NetworkPort}
    {a b : String} (hn : (w.networkPorts.map NetworkPort.name).Nodup)
    (hmem : np ∈ w.networkPorts) (hname : np.name = portName a b) :
    find_network_port w a b = some np := by
  rw [find_network_port_eq_find?]
  exact find?_key_eq_some hn hmem hname

theorem find_network_port_eq_none {w : World} {a b : String} :
    find_network_port w a b = none ↔
      ∀ p ∈ w.networkPorts, p.name ≠ portName a b := by
  rw [find_network_port_eq_find?]
  simp [List.find?_eq_none]

theorem find_port_of_mem {w : World} {np : NetworkPort}
    (hn : (w.networkPorts.map NetworkPort.id).Nodup)
    (hmem : np ∈ w.networkPorts) : find_port w np.id = some np :=
  find?_key_eq_some hn hmem rfl

theorem find_port_mem {w : World} {v : Nat} {np : NetworkPort}
    (h : find_port w v = some np) : np ∈ w.networkPorts ∧ np.id = v := by
  refine ⟨List.mem_of_find?_eq_some h, ?_⟩
  simpa using List.find?_some h

theorem networks_find?_of_mem {nets : List Network} {net : Network}
    (hn : (nets.map Network.id).Nodup) (hmem : net ∈ nets) :
    nets.find? (fun n => n.id = net.id) = some net :=
  find?_key_eq_some hn hmem rfl

theorem networks_find?_mem {nets : List Network} {x : String} {net : Network}
    (h : nets.find? (fun n => n.id = x) = some net) :
    net ∈ nets ∧ net.id = x := by
  refine ⟨List.mem_of_find?_eq_some h, ?_⟩
  simpa using List.find?_some h

@[simp] theorem detach_vif_nodes (w : World) (nid : String) (v : Nat) :
    (detach_vif w nid v).nodes = w.nodes := rfl

@[simp] theorem detach_vif_networks (w : World) (nid : String) (v : Nat) :
    (detach_vif w nid v).networks = w.networks := rfl

@[simp] theorem detach_vif_networkPorts (w : World) (nid : String) (v : Nat) :
    (detach_vif w nid v).networkPorts = w.networkPorts := rfl

@[simp] theorem detach_vif_nextPortId (w : World) (nid : String) (v : Nat) :
    (detach_vif w nid v).nextPortId = w.nextPortId := rfl

@[simp] theorem delete_port_nodes (w : World) (pid : Nat) :
    (delete_port w pid).nodes = w.nodes := rfl

@[simp] theorem delete_port_networks (w : World) (pid : Nat) :
    (delete_port w pid).networks = w.networks := rfl

@[simp] theorem delete_port_baremetalPorts (w : World) (pid : Nat) :
    (delete_port w pid).baremetalPorts = w.baremetalPorts := rfl

@[simp] theorem delete_port_nextPortId (w : World) (pid : Nat) :
    (delete_port w pid).nextPortId = w.nextPortId := rfl

@[simp] theorem attach_vif_nodes (w : World) (nid : String) (v : Nat)
    (pid : String) : (attach_vif w nid v pid).nodes = w.nodes := rfl

@[simp] theorem attach_vif_networks (w : World) (nid : String) (v : Nat)
    (pid : String) : (attach_vif w nid v pid).networks = w.networks := rfl

@[simp] theorem attach_vif_networkPorts (w : World) (nid : String) (v : Nat)
    (pid : String) :
    (attach_vif w nid v pid).networkPorts = w.networkPorts := rfl

@[simp] theorem attach_vif_nextPortId (w : World) (nid : String) (v : Nat)
    (pid : String) :
    (attach_vif w nid v pid).nextPortId = w.nextPortId := rfl

@[simp] theorem create_port_nodes (w : World) (s i : String) :
    (create_port w s i).2.nodes = w.nodes := rfl

@[simp] theorem create_port_networks (w : World) (s i : String) :
    (create_port w s i).2.networks = w.networks := rfl

@[simp] theorem create_port_baremetalPorts (w : World) (s i : String) :
    (create_port w s i).2.baremetalPorts = w.baremetalPorts := rfl

theorem create_port_networkPorts (w : World) (s i : String) :
    (create_port w s i).2.networkPorts =
      w.networkPorts ++ [⟨w.nextPortId, s, i⟩] := rfl

theorem create_port_fst (w : World) (s i : String) :
    (create_port w s i).1 = ⟨w.nextPortId, s, i⟩ := rfl

@[simp] theorem create_port_nextPortId (w : World) (s i : String) :
    (create_port w s i).2.nextPortId = w.nextPortId + 1 := rfl

@[simp] theorem baremetalPortsOf_delete_port (w : World) (pid : Nat)
    (nid : String) :
    baremetalPortsOf (delete_port w pid) nid = baremetalPortsOf w nid := rfl

@[simp] theorem baremetalPortsOf_create_port (w : World) (s i nid : String) :
    baremetalPortsOf (create_port w s i).2 nid = baremetalPortsOf w nid := rfl

theorem mem_baremetalPortsOf {w : World} {nid : String} {bp : BaremetalPort} :
    bp ∈ baremetalPortsOf w nid ↔ bp ∈ w.baremetalPorts ∧ bp.node_id = nid := by
  simp [baremetalPortsOf, List.mem_filter]

/-- Helper for the detach-phase bookkeeping: a physical port with its VIF
cleared when the VIF lies in the given set. -/
def clearVifs (S : List Nat) (bp : BaremetalPort) : BaremetalPort :=
  match bp.tenant_vif_port_id with
  | some v => if v ∈ S then { bp with tenant_vif_port_id := none } else bp
  | none => bp

@[simp] theorem clearVifs_nil (bp : BaremetalPort) : clearVifs [] bp = bp := by
  cases h : bp.tenant_vif_port_id <;> simp [clearVifs, h]

@[simp] theorem clearVifs_node_id (S : List Nat) (bp : BaremetalPort) :
    (clearVifs S bp).node_id = bp.node_id := by
  cases h : bp.tenant_vif_port_id <;> simp [clearVifs, h] <;> split <;> rfl

@[simp] theorem clearVifs_bpid (S : List Nat) (bp : BaremetalPort) :
    (clearVifs S bp).id = bp.id := by
  cases h : bp.tenant_vif_port_id <;> simp [clearVifs, h] <;> split <;> rfl

theorem clearVifs_vif_some {S : List Nat} {bp : BaremetalPort} {v : Nat}
    (h : (clearVifs S bp).tenant_vif_port_id = some v) :
    bp.tenant_vif_port_id = some v ∧ v ∉ S := by
  cases hb : bp.tenant_vif_port_id with
  | none => simp [clearVifs, hb] at h
  | some u =>
    by_cases hu : u ∈ S
    · simp [clearVifs, hb, hu] at h
    · simp [clearVifs, hb, hu] at h
      obtain rfl : v = u := by omega
      exact ⟨rfl, hu⟩

theorem clearVifs_cons (v : Nat) (S : List Nat) (bp : BaremetalPort) :
    clearVifs [v] (clearVifs S bp) = clearVifs (v :: S) bp := by
  cases hb : bp.tenant_vif_port_id with
  | none => simp [clearVifs, hb]
  | some u =>
    by_cases hu : u ∈ S
    · simp [clearVifs, hb, hu]
    · by_cases huv : u = v
      · subst huv
        simp [clearVifs, hb, hu]
      · simp [clearVifs, hb, hu, huv]

@[simp] theorem detachUpdate_node_id (nid : String) (v : Nat)
    (bp : BaremetalPort) : (detachUpdate nid v bp).node_id = bp.node_id := by
  unfold detachUpdate
  split <;> rfl

@[simp] theorem detachUpdate_bpid (nid : String) (v : Nat)
    (bp : BaremetalPort) : (detachUpdate nid v bp).id = bp.id := by
  unfold detachUpdate
  split <;> rfl

@[simp] theorem attachUpdate_node_id (nid : String) (v : Nat) (pid : String)
    (bp : BaremetalPort) :
    (attachUpdate nid v pid bp).node_id = bp.node_id := by
  unfold attachUpdate
  split <;> rfl

@[simp] theorem attachUpdate_bpid (nid : String) (v : Nat) (pid : String)
    (bp : BaremetalPort) : (attachUpdate nid v pid bp).id = bp.id := by
  unfold attachUpdate
  split <;> rfl

theorem filter_map_comm {α : Type} (l : List α) (g : α → α) (p : α → Bool)
    (hp : ∀ a, p (g a) = p a) :
    (l.map g).filter p = (l.filter p).map g := by
  induction l with
  | nil => rfl
  | cons x xs ih =>
    simp only [List.map_cons, List.filter_cons, hp x]
    cases hpx : p x <;> simp [ih]

theorem detachUpdate_eq_clearVifs {nid : String} {v : Nat}
    {bp : BaremetalPort} (h : bp.node_id = nid) :
    detachUpdate nid v bp = clearVifs [v] bp := by
  cases hb : bp.tenant_vif_port_id with
  | none => simp [detachUpdate, clearVifs, hb]
  | some u =>
    by_cases huv : u = v
    · subst huv
      simp [detachUpdate, clearVifs, h, hb]
    · simp [detachUpdate, clearVifs, h, hb, huv]

theorem bpsOf_detach_vif (w : World) (nid : String) (v : Nat) :
    baremetalPortsOf (detach_vif w nid v) nid =
      (baremetalPortsOf w nid).map (clearVifs [v]) := by
  unfold baremetalPortsOf detach_vif
  rw [filter_map_comm _ _ _ (fun a => by simp)]
  refine List.map_congr_left ?_
  intro bp hbp
  have hn : bp.node_id = nid := by
    simpa using (List.mem_filter.mp hbp).2
  exact detachUpdate_eq_clearVifs hn

/-- A physical port with its VIF set when it is the named port. -/
def setVif (v : Nat) (pid : String) (bp : BaremetalPort) : BaremetalPort :=
  if bp.id = pid then { bp with tenant_vif_port_id := some v } else bp

@[simp] theorem setVif_node_id (v : Nat) (pid : String) (bp : BaremetalPort) :
    (setVif v pid bp).node_id = bp.node_id := by
  unfold setVif
  split <;> rfl

@[simp] theorem setVif_bpid (v : Nat) (pid : String) (bp : BaremetalPort) :
    (setVif v pid bp).id = bp.id := by
  unfold setVif
  split <;> rfl

theorem attachUpdate_eq_setVif {nid : String} {v : Nat} {pid : String}
    {bp : BaremetalPort} (h : bp.node_id = nid) :
    attachUpdate nid v pid bp = setVif v pid bp := by
  by_cases hid : bp.id = pid
  · simp [attachUpdate, setVif, h, hid]
  · simp [attachUpdate, setVif, h, hid]

theorem bpsOf_attach_vif (w : World) (nid : String) (v : Nat) (pid : String) :
    baremetalPortsOf (attach_vif w nid v pid) nid =
      (baremetalPortsOf w nid).map (setVif v pid) := by
  unfold baremetalPortsOf attach_vif
  rw [filter_map_comm _ _ _ (fun a => by simp)]
  refine List.map_congr_left ?_
  intro bp hbp
  have hn : bp.node_id = nid := by
    simpa using (List.mem_filter.mp hbp).2
  exact attachUpdate_eq_setVif hn

theorem mem_currently_attached {w : World} {bps : List BaremetalPort}
    {nets : List Network} {net : Network} :
    net ∈ currently_attached_networks w bps nets ↔
      ∃ bp ∈ bps, ∃ v, bp.tenant_vif_port_id = some v ∧
        ∃ np, find_port w v = some np ∧
          nets.find? (fun n => n.id = np.network_id) = some net := by
  unfold currently_attached_networks
  rw [List.mem_filterMap]
  constructor
  · rintro ⟨bp, hbp, hf⟩
    refine ⟨bp, hbp, ?_⟩
    cases hv : bp.tenant_vif_port_id with
    | none =>
      simp only [hv] at hf
      exact Option.noConfusion hf
    | some v =>
      simp only [hv] at hf
      cases hp : find_port w v with
      | none =>
        simp only [hp] at hf
        exact Option.noConfusion hf
      | some np =>
        simp only [hp] at hf
        exact ⟨v, rfl, np, hp, hf⟩
  · rintro ⟨bp, hbp, v, hv, np, hp, hn⟩
    refine ⟨bp, hbp, ?_⟩
    simp only [hv, hp]
    exact hn

theorem mem_attachedNetworkIds {w : World} {node : Node} {x : String} :
    x ∈ attachedNetworkIds w node ↔
      ∃ bp ∈ baremetalPortsOf w node.id, ∃ v,
        bp.tenant_vif_port_id = some v ∧
        ∃ np, find_port w v = some np ∧
        ∃ net, w.networks.find? (fun n => n.id = np.network_id) = some net ∧
          net.id = x := by
  unfold attachedNetworkIds currentObjsOf
  rw [List.mem_map]
  constructor
  · rintro ⟨net, hnet, hx⟩
    rcases mem_currently_attached.mp hnet with ⟨bp, hbp, v, hv, np, hp, hn⟩
    exact ⟨bp, hbp, v, hv, np, hp, net, hn, hx⟩
  · rintro ⟨bp, hbp, v, hv, np, hp, net, hn, hx⟩
    exact ⟨net, mem_currently_attached.mpr ⟨bp, hbp, v, hv, np, hp, hn⟩, hx⟩

/-- Well-formedness of the external state with respect to one node. This
formalises the conventions of the spec's data model: networks are uniquely
identified by id and by name, network ports by id and by name, physical
ports by id; ids of network ports stay below the creation counter, as do
the VIF ids physical ports reference; a port carrying the deterministic
name of a network is bound to that network; and a carried, resolvable port
is deterministically named. -/
def Inv (w : World) (node : Node) : Prop :=
  (w.networks.map Network.id).Nodup ∧
  (w.networks.map Network.name).Nodup ∧
  (w.networkPorts.map NetworkPort.id).Nodup ∧
  (w.networkPorts.map NetworkPort.name).Nodup ∧
  (w.baremetalPorts.map BaremetalPort.id).Nodup ∧
  (∀ p ∈ w.networkPorts, p.id < w.nextPortId) ∧
  (∀ bp ∈ w.baremetalPorts, ∀ v, bp.tenant_vif_port_id = some v →
    v < w.nextPortId) ∧
  (∀ p ∈ w.networkPorts, ∀ net ∈ w.networks,
    p.name = portName node.name net.name → p.network_id = net.id) ∧
  (∀ bp ∈ w.baremetalPorts, bp.node_id = node.id →
    ∀ v, bp.tenant_vif_port_id = some v →
    ∀ p ∈ w.networkPorts, p.id = v →
    ∀ net ∈ w.networks, net.id = p.network_id →
      p.name = portName node.name net.name)

instance (w : World) (node : Node) : Decidable (Inv w node) := by
  unfold Inv
  infer_instance

theorem detachUpdate_vif_some {nid : String} {v : Nat} {bp : BaremetalPort}
    {u : Nat} (h : (detachUpdate nid v bp).tenant_vif_port_id = some u) :
    bp.tenant_vif_port_id = some u := by
  unfold detachUpdate at h
  split at h
  · exact Option.noConfusion h
  · exact h

theorem attachUpdate_vif_some {nid : String} {v : Nat} {pid : String}
    {bp : BaremetalPort} {u : Nat}
    (h : (attachUpdate nid v pid bp).tenant_vif_port_id = some u) :
    bp.tenant_vif_port_id = some u ∨ u = v := by
  unfold attachUpdate at h
  split at h
  · exact Or.inr (Option.some.inj h).symm
  · exact Or.inl h

theorem map_field_map {α β : Type} (l : List α) (g : α → α) (f : α → β)
    (hf : ∀ a, f (g a) = f a) : (l.map g).map f = l.map f := by
  rw [List.map_map]
  exact List.map_congr_left (fun a _ => hf a)

theorem Inv_detach_vif {w : World} {node : Node} (nid : String) (v : Nat)
    (hinv : Inv w node) : Inv (detach_vif w nid v) node := by
  obtain ⟨h1, h2, h3, h4, h5, h6, h7, h8, h9⟩ := hinv
  refine ⟨h1, h2, h3, h4, ?_, h6, ?_, h8, ?_⟩
  · show ((w.baremetalPorts.map (detachUpdate nid v)).map
      BaremetalPort.id).Nodup
    rw [map_field_map _ _ _ (detachUpdate_bpid nid v)]
    exact h5
  · rintro bp' hbp' u hu
    rcases List.mem_map.mp hbp' with ⟨bp, hbp, rfl⟩
    exact h7 bp hbp u (detachUpdate_vif_some hu)
  · rintro bp' hbp' hnode u hu p hp hpid net hnet hnid
    rcases List.mem_map.mp hbp' with ⟨bp, hbp, rfl⟩
    rw [detachUpdate_node_id] at hnode
    exact h9 bp hbp hnode u (detachUpdate_vif_some hu) p hp hpid net hnet hnid

theorem Inv_delete_port {w : World} {node : Node} (pid : Nat)
    (hinv : Inv w node) : Inv (delete_port w pid) node := by
  obtain ⟨h1, h2, h3, h4, h5, h6, h7, h8, h9⟩ := hinv
  have hsub : (delete_port w pid).networkPorts.Sublist w.networkPorts :=
    List.filter_sublist w.networkPorts
  refine ⟨h1, h2, ?_, ?_, h5, ?_, ?_, ?_, ?_⟩
  · exact (hsub.map NetworkPort.id).nodup h3
  · exact (hsub.map NetworkPort.name).nodup h4
  · intro p hp
    exact h6 p (hsub.mem hp)
  · exact h7
  · intro p hp net hnet hname
    exact h8 p (hsub.mem hp) net hnet hname
  · intro bp hbp hnode u hu p hp hpid net hnet hnid
    exact h9 bp hbp hnode u hu p (hsub.mem hp) hpid net hnet hnid

theorem Inv_create_port {w : World} {node : Node} {net : Network}
    (hinv : Inv w node) (hnet : net ∈ w.networks)
    (hnone : find_network_port w node.name net.name = none) :
    Inv (create_port w (portName node.name net.name) net.id).2 node := by
  obtain ⟨h1, h2, h3, h4, h5, h6, h7, h8, h9⟩ := hinv
  have hfresh : ∀ p ∈ w.networkPorts, p.id ≠ w.nextPortId :=
    fun p hp => Nat.ne_of_lt (h6 p hp)
  have hnames := find_network_port_eq_none.mp hnone
  refine ⟨h1, h2, ?_, ?_, h5, ?_, ?_, ?_, ?_⟩
  · rw [create_port_networkPorts, List.map_append]
    rw [List.nodup_append]
    refine ⟨h3, List.nodup_singleton _, ?_⟩
    intro x hx hx'
    simp only [List.map_cons, List.map_nil, List.mem_singleton] at hx'
    rcases List.mem_map.mp hx with ⟨p, hp, rfl⟩
    exact hfresh p hp hx'
  · rw [create_port_networkPorts, List.map_append]
    rw [List.nodup_append]
    refine ⟨h4, List.nodup_singleton _, ?_⟩
    intro x hx hx'
    simp only [List.map_cons, List.map_nil, List.mem_singleton] at hx'
    rcases List.mem_map.mp hx with ⟨p, hp, rfl⟩
    exact hnames p hp hx'
  · intro p hp
    rw [create_port_networkPorts] at hp
    rcases List.mem_append.mp hp with hp | hp
    · exact Nat.lt_succ_of_lt (h6 p hp)
    · simp only [List.mem_singleton] at hp
      subst hp
      exact Nat.lt_succ_self _
  · intro bp hbp u hu
    exact Nat.lt_succ_of_lt (h7 bp hbp u hu)
  · intro p hp net' hnet' hname
    rw [create_port_networkPorts] at hp
    rcases List.mem_append.mp hp with hp | hp
    · exact h8 p hp net' hnet' hname
    · simp only [List.mem_singleton] at hp
      subst hp
      have heq : net.name = net'.name := portName_inj hname
      have : net = net' := List.inj_on_of_nodup_map h2 hnet hnet' heq
      rw [← this]
  · intro bp hbp hnode u hu p hp hpid net' hnet' hnid
    rw [create_port_networkPorts] at hp
    rcases List.mem_append.mp hp with hp | hp
    · exact h9 bp hbp hnode u hu p hp hpid net' hnet' hnid
    · simp only [List.mem_singleton] at hp
      subst hp
      simp only at hpid
      exact absurd (hpid ▸ h7 bp hbp u hu) (Nat.lt_irrefl _)

theorem Inv_attach_vif {w : World} {node : Node} {np : NetworkPort}
    {net : Network} (hinv : Inv w node) (hnp : np ∈ w.networkPorts)
    (hnet : net ∈ w.networks)
    (hname : np.name = portName node.name net.name)
    (hbind : np.network_id = net.id) (pid : String) :
    Inv (attach_vif w node.id np.id pid) node := by
  obtain ⟨h1, h2, h3, h4, h5, h6, h7, h8, h9⟩ := hinv
  refine ⟨h1, h2, h3, h4, ?_, h6, ?_, h8, ?_⟩
  · show ((w.baremetalPorts.map (attachUpdate node.id np.id pid)).map
      BaremetalPort.id).Nodup
    rw [map_field_map _ _ _ (attachUpdate_bpid node.id np.id pid)]
    exact h5
  · rintro bp' hbp' u hu
    rcases List.mem_map.mp hbp' with ⟨bp, hbp, rfl⟩
    rcases attachUpdate_vif_some hu with h | h
    · exact h7 bp hbp u h
    · subst h
      exact h6 np hnp
  · rintro bp' hbp' hnode u hu p hp hpid net' hnet' hnid
    rcases List.mem_map.mp hbp' with ⟨bp, hbp, rfl⟩
    rw [attachUpdate_node_id] at hnode
    rcases attachUpdate_vif_some hu with h | h
    · exact h9 bp hbp hnode u h p hp hpid net' hnet' hnid
    · subst h
      have hpnp : p = np :=
        List.inj_on_of_nodup_map h3 hp hnp hpid
      subst hpnp
      have : net' = net := by
        refine List.inj_on_of_nodup_map h1 hnet' hnet ?_
        rw [hnid, hbind]
      rw [this, hname]

theorem find?_filter_of_imp {α : Type} {p q : α → Bool} (l : List α)
    (h : ∀ a, p a = true → q a = true) : (l.filter q).find? p = l.find? p := by
  induction l with
  | nil => rfl
  | cons x xs ih =>
    by_cases hq : q x
    · rw [List.filter_cons_of_pos hq]
      by_cases hp : p x
      · simp [List.find?_cons, hp]
      · simp [List.find?_cons, hp, ih]
    · have hp : ¬ p x = true := fun hpx => hq (h x hpx)
      rw [List.filter_cons_of_neg (by simpa using hq),
          List.find?_cons_of_neg _ hp]
      exact ih

theorem clearVifs_eq_self {S : List Nat} {bp : BaremetalPort} {v : Nat}
    (hv : bp.tenant_vif_port_id = some v) (hS : v ∉ S) :
    clearVifs S bp = bp := by
  simp [clearVifs, hv, hS]

theorem find_port_delete {w : World} {pid v : Nat} (h : v ≠ pid) :
    find_port (delete_port w pid) v = find_port w v := by
  unfold find_port delete_port
  refine find?_filter_of_imp _ ?_
  intro p hp
  simp only [decide_eq_true_eq] at hp
  simp [hp, h]

theorem find_port_detach (w : World) (nid : String) (u v : Nat) :
    find_port (detach_vif w nid u) v = find_port w v := rfl

/-- If no network port carries the deterministic name of a network, that
network is not derived from the node's physical ports (claim used for the
skip branch of the detach phase). -/
theorem not_attached_of_no_port {w : World} {node : Node} {net : Network}
    (hinv : Inv w node) (hnet : net ∈ w.networks)
    (hfind : find_network_port w node.name net.name = none) :
    net.id ∉ attachedNetworkIds w node := by
  obtain ⟨h1, h2, h3, h4, h5, h6, h7, h8, h9⟩ := hinv
  intro hmem
  rcases mem_attachedNetworkIds.mp hmem with
    ⟨bp, hbp, v, hv, np', hnp', net', hnet', hid⟩
  rcases find_port_mem hnp' with ⟨hnpmem, hnpid⟩
  rcases networks_find?_mem hnet' with ⟨hnet'mem, hnet'id⟩
  have hbpw := mem_baremetalPortsOf.mp hbp
  have hname : np'.name = portName node.name net.name := by
    refine h9 bp hbpw.1 hbpw.2 v hv np' hnpmem hnpid net hnet ?_
    rw [← hnet'id, hid]
  exact find_network_port_eq_none.mp hfind np' hnpmem hname

/-- If the deterministically named port of a network exists but no
snapshot physical port carries it, the network is not derived from the
node's physical ports in any world whose ports are the snapshot with some
VIFs cleared (claim used for the no-op branch of the detach phase). -/
theorem not_attached_of_no_carrier {w : World} {node : Node} {net : Network}
    {np : NetworkPort} {bps : List BaremetalPort} {S : List Nat}
    (hinv : Inv w node) (hnet : net ∈ w.networks)
    (hbps : baremetalPortsOf w node.id = bps.map (clearVifs S))
    (hfind : find_network_port w node.name net.name = some np)
    (hmatch : find_matching_baremetal_port bps np = none) :
    net.id ∉ attachedNetworkIds w node := by
  obtain ⟨h1, h2, h3, h4, h5, h6, h7, h8, h9⟩ := hinv
  intro hmem
  rcases mem_attachedNetworkIds.mp hmem with
    ⟨bp, hbp, v, hv, np', hnp', net', hnet', hid⟩
  rcases find_port_mem hnp' with ⟨hnpmem, hnpid⟩
  rcases networks_find?_mem hnet' with ⟨hnet'mem, hnet'id⟩
  have hbpw := mem_baremetalPortsOf.mp hbp
  have hname : np'.name = portName node.name net.name := by
    refine h9 bp hbpw.1 hbpw.2 v hv np' hnpmem hnpid net hnet ?_
    rw [← hnet'id, hid]
  rcases find_network_port_mem hfind with ⟨hnpm, hnpn⟩
  have hnp'np : np' = np :=
    List.inj_on_of_nodup_map h4 hnpmem hnpm (hname.trans hnpn.symm)
  rw [hbps] at hbp
  rcases List.mem_map.mp hbp with ⟨bp0, hbp0, rfl⟩
  have hv0 := (clearVifs_vif_some hv).1
  have := List.find?_eq_none.mp hmatch bp0 hbp0
  rw [hv0] at this
  apply this
  simp [hnp'np ▸ hnpid]

/-- Effect of one firing detach iteration on the derived network-id set:
exactly the processed network disappears. -/
theorem detach_step_removes {w : World} {node : Node} {net : Network}
    {np : NetworkPort} (hinv : Inv w node) (hnet : net ∈ w.networks)
    (hfind : find_network_port w node.name net.name = some np) (x : String) :
    x ∈ attachedNetworkIds
        (delete_port (detach_vif w node.id np.id) np.id) node ↔
      x ∈ attachedNetworkIds w node ∧ net.id ≠ x := by
  obtain ⟨h1, h2, h3, h4, h5, h6, h7, h8, h9⟩ := hinv
  rcases find_network_port_mem hfind with ⟨hnpm, hnpn⟩
  have hbps1 : baremetalPortsOf
      (delete_port (detach_vif w node.id np.id) np.id) node.id =
      (baremetalPortsOf w node.id).map (clearVifs [np.id]) := by
    rw [baremetalPortsOf_delete_port, bpsOf_detach_vif]
  constructor
  · intro hx
    rcases mem_attachedNetworkIds.mp hx with
      ⟨bp1, hbp1, v, hv, np', hnp', net', hnet', hid⟩
    rw [hbps1] at hbp1
    rcases List.mem_map.mp hbp1 with ⟨bp0, hbp0, rfl⟩
    rcases clearVifs_vif_some hv with ⟨hv0, hvne⟩
    have hvne : v ≠ np.id := by simpa using hvne
    have hfp : find_port w v = some np' := by
      rw [← find_port_detach w node.id np.id v, ← find_port_delete hvne]
      exact hnp'
    have hnet'w : w.networks.find? (fun n => n.id = np'.network_id) =
        some net' := hnet'
    have hxw : x ∈ attachedNetworkIds w node :=
      mem_attachedNetworkIds.mpr ⟨bp0, hbp0, v, hv0, np', hfp, net', hnet'w,
        hid⟩
    refine ⟨hxw, ?_⟩
    intro hxnet
    rcases find_port_mem hfp with ⟨hnpmem, hnpid⟩
    rcases networks_find?_mem hnet'w with ⟨hnet'mem, hnet'id⟩
    have hbpw := mem_baremetalPortsOf.mp hbp0
    have hname : np'.name = portName node.name net.name := by
      refine h9 bp0 hbpw.1 hbpw.2 v hv0 np' hnpmem hnpid net hnet ?_
      rw [← hnet'id, hid, ← hxnet]
    have : np' = np :=
      List.inj_on_of_nodup_map h4 hnpmem hnpm (hname.trans hnpn.symm)
    exact hvne (by rw [← hnpid, this])
  · rintro ⟨hxw, hxne⟩
    rcases mem_attachedNetworkIds.mp hxw with
      ⟨bp, hbp, v, hv, np', hnp', net', hnet', hid⟩
    have hvne : v ≠ np.id := by
      intro hveq
      subst hveq
      have : find_port w np.id = some np := find_port_of_mem h3 hnpm
      rw [this] at hnp'
      have hnp'np : np' = np := by
        injection hnp' with h
        exact h.symm
      subst hnp'np
      have hbind : np'.network_id = net.id := h8 np' hnpm net hnet hnpn
      rcases networks_find?_mem hnet' with ⟨hnet'mem, hnet'id⟩
      exact hxne (by rw [← hid, hnet'id, hbind])
    refine mem_attachedNetworkIds.mpr ?_
    refine ⟨clearVifs [np.id] bp, ?_, v, ?_, np', ?_, net', hnet', hid⟩
    · rw [hbps1]
      exact List.mem_map_of_mem _ hbp
    · rw [clearVifs_eq_self hv (by simpa using hvne)]
      exact hv
    · rw [← find_port_detach w node.id np.id v, ← find_port_delete hvne]
        at hnp'
      exact hnp'

theorem delete_port_networkPorts (w : World) (pid : Nat) :
    (delete_port w pid).networkPorts =
      w.networkPorts.filter (fun p => p.id ≠ pid) := rfl

/-- Main property of the detach phase: the invariant is preserved, only
network ports are removed, the node's physical ports are the snapshot with
some VIFs cleared, and exactly the ids of the processed networks disappear
from the derived network-id set. -/
theorem detachLoop_spec (node : Node) (bps : List BaremetalPort) :
    ∀ (L : List Network) (w : World) (S : List Nat),
    Inv w node →
    baremetalPortsOf w node.id = bps.map (clearVifs S) →
    (∀ net ∈ L, net ∈ w.networks) →
    Inv (detachLoop node bps w L).1 node ∧
    (detachLoop node bps w L).1.nodes = w.nodes ∧
    (detachLoop node bps w L).1.networks = w.networks ∧
    (detachLoop node bps w L).1.nextPortId = w.nextPortId ∧
    (∃ T, baremetalPortsOf (detachLoop node bps w L).1 node.id =
        bps.map (clearVifs T)) ∧
    (detachLoop node bps w L).1.networkPorts.Sublist w.networkPorts ∧
    (∀ x, x ∈ attachedNetworkIds (detachLoop node bps w L).1 node ↔
        x ∈ attachedNetworkIds w node ∧ ∀ net ∈ L, net.id ≠ x) := by
  intro L
  induction L with
  | nil =>
    intro w S hinv hbps hmem
    exact ⟨hinv, rfl, rfl, rfl, ⟨S, hbps⟩, List.Sublist.refl _,
      fun x => by simp [detachLoop]⟩
  | cons net L ih =>
    intro w S hinv hbps hmem
    have hnet : net ∈ w.networks := hmem net (List.mem_cons_self net L)
    have hmemL : ∀ n ∈ L, n ∈ w.networks :=
      fun n hn => hmem n (List.mem_cons_of_mem _ hn)
    cases hfind : find_network_port w node.name net.name with
    | none =>
      have heq : detachLoop node bps w (net :: L) =
          detachLoop node bps w L := by
        simp [detachLoop, hfind]
      rw [heq]
      obtain ⟨i1, i2, i3, i4, i5, i6, i7⟩ := ih w S hinv hbps hmemL
      refine ⟨i1, i2, i3, i4, i5, i6, ?_⟩
      intro x
      rw [i7 x, List.forall_mem_cons]
      have hnot := not_attached_of_no_port hinv hnet hfind
      constructor
      · rintro ⟨hx, hL⟩
        exact ⟨hx, fun h => hnot (by rw [h]; exact hx), hL⟩
      · rintro ⟨hx, _, hL⟩
        exact ⟨hx, hL⟩
    | some np =>
      cases hmatch : find_matching_baremetal_port bps np with
      | none =>
        have heq : detachLoop node bps w (net :: L) =
            detachLoop node bps w L := by
          simp [detachLoop, hfind, hmatch]
        rw [heq]
        obtain ⟨i1, i2, i3, i4, i5, i6, i7⟩ := ih w S hinv hbps hmemL
        refine ⟨i1, i2, i3, i4, i5, i6, ?_⟩
        intro x
        rw [i7 x, List.forall_mem_cons]
        have hnot := not_attached_of_no_carrier hinv hnet hbps hfind hmatch
        constructor
        · rintro ⟨hx, hL⟩
          exact ⟨hx, fun h => hnot (by rw [h]; exact hx), hL⟩
        · rintro ⟨hx, _, hL⟩
          exact ⟨hx, hL⟩
      | some bp0 =>
        have heq1 : (detachLoop node bps w (net :: L)).1 =
            (detachLoop node bps
              (delete_port (detach_vif w node.id np.id) np.id) L).1 := by
          simp [detachLoop, hfind, hmatch]
        have hinv1 : Inv (delete_port (detach_vif w node.id np.id) np.id)
            node := Inv_delete_port _ (Inv_detach_vif _ _ hinv)
        have hbps1 : baremetalPortsOf
            (delete_port (detach_vif w node.id np.id) np.id) node.id =
            bps.map (clearVifs (np.id :: S)) := by
          rw [baremetalPortsOf_delete_port, bpsOf_detach_vif, hbps,
            List.map_map]
          refine List.map_congr_left (fun bp _ => ?_)
          simp only [Function.comp_apply]
          exact clearVifs_cons np.id S bp
        have hmem1 : ∀ n ∈ L,
            n ∈ (delete_port (detach_vif w node.id np.id) np.id).networks := by
          simpa using hmemL
        obtain ⟨i1, i2, i3, i4, i5, i6, i7⟩ :=
          ih (delete_port (detach_vif w node.id np.id) np.id) (np.id :: S)
            hinv1 hbps1 hmem1
        rw [heq1]
        refine ⟨i1, ?_, ?_, ?_, i5, ?_, ?_⟩
        · rw [i2]
          simp
        · rw [i3]
          simp
        · rw [i4]
          simp
        · refine i6.trans ?_
          rw [delete_port_networkPorts, detach_vif_networkPorts]
          exact List.filter_sublist _
        · intro x
          rw [i7 x, detach_step_removes hinv hnet hfind x,
            List.forall_mem_cons]
          constructor
          · rintro ⟨⟨hx, hne⟩, hL⟩
            exact ⟨hx, hne, hL⟩
          · rintro ⟨hx, hne, hL⟩
            exact ⟨⟨hx, hne⟩, hL⟩

theorem find_port_create {w : World} {s i : String} {v : Nat}
    (h : v ≠ w.nextPortId) :
    find_port (create_port w s i).2 v = find_port w v := by
  unfold find_port
  rw [create_port_networkPorts, List.find?_append]
  have hnone : List.find? (fun p => p.id = v)
      ([⟨w.nextPortId, s, i⟩] : List NetworkPort) = none := by
    rw [List.find?_cons_of_neg]
    · rfl
    · simp only [decide_eq_true_eq]
      exact fun hh => h hh.symm
  rw [hnone]
  cases List.find? (fun p => p.id = v) w.networkPorts <;> rfl

/-- Creating a network port does not change the derived network-id set,
as long as every carried VIF id is below the creation counter. -/
theorem attached_create {w : World} {node : Node} {s i : String}
    (hvifs : ∀ bp ∈ w.baremetalPorts, ∀ v, bp.tenant_vif_port_id = some v →
      v < w.nextPortId) (x : String) :
    x ∈ attachedNetworkIds (create_port w s i).2 node ↔
      x ∈ attachedNetworkIds w node := by
  constructor
  · intro hx
    rcases mem_attachedNetworkIds.mp hx with
      ⟨bp, hbp, v, hv, np, hnp, net, hnet, hid⟩
    rw [baremetalPortsOf_create_port] at hbp
    have hlt : v < w.nextPortId :=
      hvifs bp (mem_baremetalPortsOf.mp hbp).1 v hv
    rw [find_port_create (Nat.ne_of_lt hlt)] at hnp
    exact mem_attachedNetworkIds.mpr ⟨bp, hbp, v, hv, np, hnp, net, hnet, hid⟩
  · intro hx
    rcases mem_attachedNetworkIds.mp hx with
      ⟨bp, hbp, v, hv, np, hnp, net, hnet, hid⟩
    have hlt : v < w.nextPortId :=
      hvifs bp (mem_baremetalPortsOf.mp hbp).1 v hv
    refine mem_attachedNetworkIds.mpr ⟨bp, ?_, v, hv, np, ?_, net, ?_, hid⟩
    · rw [baremetalPortsOf_create_port]
      exact hbp
    · rw [find_port_create (Nat.ne_of_lt hlt)]
      exact hnp
    · exact hnet

theorem setVif_of_ne {v : Nat} {pid : String} {bp : BaremetalPort}
    (h : bp.id ≠ pid) : setVif v pid bp = bp := by
  simp [setVif, h]

theorem setVif_of_eq {v : Nat} {pid : String} {bp : BaremetalPort}
    (h : bp.id = pid) :
    setVif v pid bp = { bp with tenant_vif_port_id := some v } := by
  simp [setVif, h]

/-- Effect of one firing attach iteration on the derived network-id set:
exactly the processed network appears. -/
theorem attach_step_adds {w : World} {node : Node} {np : NetworkPort}
    {net : Network} {bp : BaremetalPort}
    (hinv : Inv w node) (hnet : net ∈ w.networks)
    (hnp : np ∈ w.networkPorts)
    (hname : np.name = portName node.name net.name)
    (hbind : np.network_id = net.id)
    (hbp : bp ∈ baremetalPortsOf w node.id)
    (hfree : bp.tenant_vif_port_id = none) (x : String) :
    x ∈ attachedNetworkIds (attach_vif w node.id np.id bp.id) node ↔
      x ∈ attachedNetworkIds w node ∨ x = net.id := by
  obtain ⟨h1, h2, h3, h4, h5, h6, h7, h8, h9⟩ := hinv
  have hbpsw := mem_baremetalPortsOf.mp hbp
  have hbpid : ∀ bp0 ∈ w.baremetalPorts, bp0.id = bp.id → bp0 = bp :=
    fun bp0 h0 he => List.inj_on_of_nodup_map h5 h0 hbpsw.1 he
  have hfindnp : find_port w np.id = some np := find_port_of_mem h3 hnp
  have hfindnet : w.networks.find? (fun n => n.id = np.network_id) =
      some net := by
    rw [hbind]
    exact networks_find?_of_mem h1 hnet
  constructor
  · intro hx
    rcases mem_attachedNetworkIds.mp hx with
      ⟨bp1, hbp1, v, hv, nq, hnq, mq, hmq, hid⟩
    rw [bpsOf_attach_vif] at hbp1
    rcases List.mem_map.mp hbp1 with ⟨bq, hbq, rfl⟩
    have hfp' : find_port w v = some nq := hnq
    have hmq' : w.networks.find? (fun n => n.id = nq.network_id) =
        some mq := hmq
    by_cases hbe : bq.id = bp.id
    · rw [setVif_of_eq hbe] at hv
      have hv2 : some np.id = some v := hv
      have hvnp : v = np.id := (Option.some.inj hv2).symm
      subst hvnp
      rw [hfindnp] at hfp'
      have hq2 : nq = np := (Option.some.inj hfp').symm
      subst hq2
      rw [hfindnet] at hmq'
      have hq3 : mq = net := (Option.some.inj hmq').symm
      subst hq3
      exact Or.inr hid.symm
    · rw [setVif_of_ne hbe] at hv
      exact Or.inl (mem_attachedNetworkIds.mpr
        ⟨bq, hbq, v, hv, nq, hfp', mq, hmq', hid⟩)
  · intro hx
    rcases hx with hx | hx
    · rcases mem_attachedNetworkIds.mp hx with
        ⟨bq, hbq, v, hv, nq, hnq, mq, hmq, hid⟩
      have hbe : bq.id ≠ bp.id := by
        intro he
        have hq : bq = bp := hbpid bq (mem_baremetalPortsOf.mp hbq).1 he
        rw [hq, hfree] at hv
        exact Option.noConfusion hv
      refine mem_attachedNetworkIds.mpr
        ⟨setVif np.id bp.id bq, ?_, v, ?_, nq, hnq, mq, hmq, hid⟩
      · rw [bpsOf_attach_vif]
        exact List.mem_map_of_mem _ hbq
      · rw [setVif_of_ne hbe]
        exact hv
    · subst hx
      refine mem_attachedNetworkIds.mpr
        ⟨setVif np.id bp.id bp, ?_, np.id, ?_, np, hfindnp, net, hfindnet,
          rfl⟩
      · rw [bpsOf_attach_vif]
        exact List.mem_map_of_mem _ hbp
      · rw [setVif_of_eq rfl]

/-- Main property of the attach phase on success: the invariant is
preserved and the derived network-id set grows by exactly the ids of the
processed networks. -/
theorem attachLoop_spec (node : Node) :
    ∀ (L : List Network) (w : World),
    Inv w node →
    (∀ net ∈ L, net ∈ w.networks) →
    ∀ wf ch tr, attachLoop node w L = .ok wf ch tr →
    Inv wf node ∧ wf.nodes = w.nodes ∧ wf.networks = w.networks ∧
    (∀ x, x ∈ attachedNetworkIds wf node ↔
        x ∈ attachedNetworkIds w node ∨ ∃ net ∈ L, net.id = x) := by
  intro L
  induction L with
  | nil =>
    intro w hinv hmem wf ch tr h
    simp only [attachLoop] at h
    cases h
    exact ⟨hinv, rfl, rfl, fun x => by simp⟩
  | cons net L ih =>
    intro w hinv hmem wf ch tr h
    have hinvc := hinv
    obtain ⟨h1, h2, h3, h4, h5, h6, h7, h8, h9⟩ := hinvc
    have hnet : net ∈ w.networks := hmem net (List.mem_cons_self net L)
    have hmemL : ∀ n ∈ L, n ∈ w.networks :=
      fun n hn => hmem n (List.mem_cons_of_mem _ hn)
    cases hfind : find_network_port w node.name net.name with
    | some np =>
      obtain ⟨hnpm, hnpn⟩ := find_network_port_mem hfind
      have hbind : np.network_id = net.id := h8 np hnpm net hnet hnpn
      cases hmatch : find_matching_baremetal_port
          (baremetalPortsOf w node.id) np with
      | some bp1 =>
        simp only [attachLoop, hfind, hmatch] at h
        obtain ⟨i1, i2, i3, i4⟩ := ih w hinv hmemL wf ch tr h
        have hbp1 : bp1 ∈ baremetalPortsOf w node.id :=
          List.mem_of_find?_eq_some hmatch
        have hbv : bp1.tenant_vif_port_id = some np.id := by
          simpa using List.find?_some hmatch
        have hfnp : find_port w np.id = some np := find_port_of_mem h3 hnpm
        have hfnet : w.networks.find? (fun n => n.id = np.network_id) =
            some net := by
          rw [hbind]
          exact networks_find?_of_mem h1 hnet
        have hnetmem : net.id ∈ attachedNetworkIds w node :=
          mem_attachedNetworkIds.mpr
            ⟨bp1, hbp1, np.id, hbv, np, hfnp, net, hfnet, rfl⟩
        refine ⟨i1, i2, i3, ?_⟩
        intro x
        rw [i4 x]
        constructor
        · rintro (hx | ⟨n, hn, hnx⟩)
          · exact Or.inl hx
          · exact Or.inr ⟨n, List.mem_cons_of_mem _ hn, hnx⟩
        · rintro (hx | ⟨n, hn, hnx⟩)
          · exact Or.inl hx
          · rcases List.mem_cons.mp hn with rfl | hn
            · exact Or.inl (by rw [← hnx]; exact hnetmem)
            · exact Or.inr ⟨n, hn, hnx⟩
      | none =>
        cases hfree : find_free_baremetal_port (baremetalPortsOf w node.id)
          with
        | none =>
          simp only [attachLoop, hfind, hmatch, hfree] at h
          exact AttachResult.noConfusion h
        | some bp =>
          have hbpmem : bp ∈ baremetalPortsOf w node.id :=
            List.mem_of_find?_eq_some hfree
          have hbfree : bp.tenant_vif_port_id = none := by
            simpa using List.find?_some hfree
          simp only [attachLoop, hfind, hmatch, hfree] at h
          cases hrec : attachLoop node (attach_vif w node.id np.id bp.id) L
            with
          | exhausted a b wf2 tr2 =>
            rw [hrec] at h
            exact AttachResult.noConfusion h
          | ok wf2 ch2 tr2 =>
            rw [hrec] at h
            cases h
            have hinv2 : Inv (attach_vif w node.id np.id bp.id) node :=
              Inv_attach_vif hinv hnpm hnet hnpn hbind bp.id
            have hmem2 : ∀ n ∈ L,
                n ∈ (attach_vif w node.id np.id bp.id).networks := by
              simpa using hmemL
            obtain ⟨i1, i2, i3, i4⟩ := ih _ hinv2 hmem2 _ _ _ hrec
            refine ⟨i1, by simpa using i2, by simpa using i3, ?_⟩
            intro x
            rw [i4 x,
              attach_step_adds hinv hnet hnpm hnpn hbind hbpmem hbfree x]
            constructor
            · rintro ((hx | hx) | ⟨n, hn, hnx⟩)
              · exact Or.inl hx
              · exact Or.inr ⟨net, List.mem_cons_self net L, hx.symm⟩
              · exact Or.inr ⟨n, List.mem_cons_of_mem _ hn, hnx⟩
            · rintro (hx | ⟨n, hn, hnx⟩)
              · exact Or.inl (Or.inl hx)
              · rcases List.mem_cons.mp hn with rfl | hn
                · exact Or.inl (Or.inr hnx.symm)
                · exact Or.inr ⟨n, hn, hnx⟩
    | none =>
      have hmatchc : find_matching_baremetal_port (baremetalPortsOf w node.id)
          (create_port w (portName node.name net.name) net.id).1 = none := by
        apply List.find?_eq_none.mpr
        intro bp hbp
        rw [create_port_fst]
        simp only [decide_eq_true_eq]
        intro hc
        exact absurd (h7 bp (mem_baremetalPortsOf.mp hbp).1 w.nextPortId hc)
          (Nat.lt_irrefl _)
      cases hfree : find_free_baremetal_port (baremetalPortsOf w node.id)
        with
      | none =>
        simp only [attachLoop, hfind, hmatchc, hfree] at h
        exact AttachResult.noConfusion h
      | some bp =>
        have hbpmem : bp ∈ baremetalPortsOf w node.id :=
          List.mem_of_find?_eq_some hfree
        have hbfree : bp.tenant_vif_port_id = none := by
          simpa using List.find?_some hfree
        simp only [attachLoop, hfind, hmatchc, hfree] at h
        have hinvcr : Inv (create_port w (portName node.name net.name)
            net.id).2 node := Inv_create_port hinv hnet hfind
        have hc1mem : (create_port w (portName node.name net.name) net.id).1
            ∈ (create_port w (portName node.name net.name) net.id).2.networkPorts := by
          rw [create_port_networkPorts, create_port_fst]
          exact List.mem_append_right _ (List.mem_singleton_self _)
        have hnetc : net ∈ (create_port w (portName node.name net.name)
            net.id).2.networks := by
          simpa using hnet
        have hbpc : bp ∈ baremetalPortsOf
            (create_port w (portName node.name net.name) net.id).2 node.id := by
          rw [baremetalPortsOf_create_port]
          exact hbpmem
        cases hrec : attachLoop node
            (attach_vif (create_port w (portName node.name net.name) net.id).2
              node.id
              (create_port w (portName node.name net.name) net.id).1.id
              bp.id) L with
        | exhausted a b wf2 tr2 =>
          rw [hrec] at h
          exact AttachResult.noConfusion h
        | ok wf2 ch2 tr2 =>
          rw [hrec] at h
          cases h
          have hinv2 : Inv (attach_vif
              (create_port w (portName node.name net.name) net.id).2 node.id
              (create_port w (portName node.name net.name) net.id).1.id
              bp.id) node :=
            Inv_attach_vif hinvcr hc1mem hnetc (by rw [create_port_fst])
              (by rw [create_port_fst]) bp.id
          have hmem2 : ∀ n ∈ L, n ∈ (attach_vif
              (create_port w (portName node.name net.name) net.id).2 node.id
              (create_port w (portName node.name net.name) net.id).1.id
              bp.id).networks := by
            simpa using hmemL
          obtain ⟨i1, i2, i3, i4⟩ := ih _ hinv2 hmem2 _ _ _ hrec
          refine ⟨i1, by simpa using i2, by simpa using i3, ?_⟩
          intro x
          rw [i4 x,
            attach_step_adds hinvcr hnetc hc1mem (by rw [create_port_fst])
              (by rw [create_port_fst]) hbpc hbfree x,
            attached_create h7 x]
          constructor
          · rintro ((hx | hx) | ⟨n, hn, hnx⟩)
            · exact Or.inl hx
            · exact Or.inr ⟨net, List.mem_cons_self net L, hx.symm⟩
            · exact Or.inr ⟨n, List.mem_cons_of_mem _ hn, hnx⟩
          · rintro (hx | ⟨n, hn, hnx⟩)
            · exact Or.inl (Or.inl hx)
            · rcases List.mem_cons.mp hn with rfl | hn
              · exact Or.inl (Or.inr hnx.symm)
              · exact Or.inr ⟨n, hn, hnx⟩

theorem contains_iff {l : List String} {x : String} :
    l.contains x = true ↔ x ∈ l := by
  simp [List.contains, List.elem_iff]

theorem mem_desiredObjs_networks {w : World} {desired : List String}
    {n : Network} (h : n ∈ desiredObjsOf w desired) : n ∈ w.networks :=
  (List.mem_filter.mp h).1

theorem mem_currentObjs_networks {w : World} {node : Node} {n : Network}
    (h : n ∈ currentObjsOf w node) : n ∈ w.networks := by
  rcases mem_currently_attached.mp h with ⟨bp, hbp, v, hv, np, hnp, hn⟩
  exact List.mem_of_find?_eq_some hn

theorem mem_toDetachOf {w : World} {node : Node} {desired : List String}
    {n : Network} :
    n ∈ toDetachOf w node desired ↔
      n ∈ currentObjsOf w node ∧
        n.id ∉ (desiredObjsOf w desired).map Network.id := by
  unfold toDetachOf
  rw [List.mem_filter]
  simp [contains_iff]

theorem mem_toAttachOf {w : World} {node : Node} {desired : List String}
    {n : Network} :
    n ∈ toAttachOf w node desired ↔
      n ∈ desiredObjsOf w desired ∧
        n.id ∉ attachedNetworkIds w node := by
  unfold toAttachOf attachedNetworkIds
  rw [List.mem_filter]
  simp [contains_iff]

theorem find_node_congr {w w' : World} (ref : String)
    (h : w'.nodes = w.nodes) : find_node w' ref = find_node w ref := by
  unfold find_node
  rw [h]

theorem desiredObjs_congr {w w' : World} (desired : List String)
    (h : w'.networks = w.networks) :
    desiredObjsOf w' desired = desiredObjsOf w desired := by
  unfold desiredObjsOf
  rw [h]

theorem map_clearVifs_nil (l : List BaremetalPort) :
    l.map (clearVifs []) = l := by
  induction l with
  | nil => rfl
  | cons a t ih => simp [ih]

theorem run_eq_none {w : World} {ref : String} {p : Option (List String)}
    (h : find_node w ref = none) : run w ref p = .notFound := by
  unfold run
  rw [h]

theorem run_eq_some {w : World} {ref : String} {p : Option (List String)}
    {node : Node} (h : find_node w ref = some node) :
    run w ref p =
      match attachLoop node
          (detachLoop node (baremetalPortsOf w node.id) w
            (toDetachOf w node (p.getD []))).1
          (toAttachOf w node (p.getD [])) with
      | .ok w2 ch2 tr2 =>
          .ok ((detachLoop node (baremetalPortsOf w node.id) w
              (toDetachOf w node (p.getD []))).2.1 || ch2) w2
            ((detachLoop node (baremetalPortsOf w node.id) w
              (toDetachOf w node (p.getD []))).2.2 ++ tr2)
      | .exhausted nid nn w2 tr2 =>
          .exhausted nid nn w2
            ((detachLoop node (baremetalPortsOf w node.id) w
              (toDetachOf w node (p.getD []))).2.2 ++ tr2) := by
  unfold run
  rw [h]

/-- Umbrella lemma for a successful run: the invariant is preserved, the
node and network catalogues are untouched, and the derived network-id set
afterwards is exactly the set of desired network ids. -/
theorem run_ok_spec {w : World} {ref : String} {p : Option (List String)}
    {node : Node} {ch : Bool} {w' : World} {tr : List Event}
    (hnode : find_node w ref = some node) (hinv : Inv w node)
    (hrun : run w ref p = .ok ch w' tr) :
    Inv w' node ∧ w'.nodes = w.nodes ∧ w'.networks = w.networks ∧
    (∀ x, x ∈ attachedNetworkIds w' node ↔
      x ∈ (desiredObjsOf w (p.getD [])).map Network.id) := by
  rw [run_eq_some hnode] at hrun
  have hsnap : baremetalPortsOf w node.id =
      (baremetalPortsOf w node.id).map (clearVifs []) :=
    (map_clearVifs_nil _).symm
  have hdmem : ∀ n ∈ toDetachOf w node (p.getD []), n ∈ w.networks :=
    fun n hn => mem_currentObjs_networks (mem_toDetachOf.mp hn).1
  obtain ⟨d1, d2, d3, d4, d5, d6, d7⟩ :=
    detachLoop_spec node (baremetalPortsOf w node.id)
      (toDetachOf w node (p.getD [])) w [] hinv hsnap hdmem
  cases hatt : attachLoop node
      (detachLoop node (baremetalPortsOf w node.id) w
        (toDetachOf w node (p.getD []))).1
      (toAttachOf w node (p.getD [])) with
  | exhausted a b w2 tr2 =>
    simp only [hatt] at hrun
    exact RunResult.noConfusion hrun
  | ok w2 ch2 tr2 =>
    simp only [hatt] at hrun
    injection hrun with hch hw htr
    subst hw
    have hamem : ∀ n ∈ toAttachOf w node (p.getD []),
        n ∈ (detachLoop node (baremetalPortsOf w node.id) w
          (toDetachOf w node (p.getD []))).1.networks := by
      rw [d3]
      exact fun n hn =>
        mem_desiredObjs_networks (mem_toAttachOf.mp hn).1
    obtain ⟨a1, a2, a3, a4⟩ :=
      attachLoop_spec node (toAttachOf w node (p.getD [])) _ d1 hamem _ _ _
        hatt
    refine ⟨a1, a2.trans d2, a3.trans d3, ?_⟩
    intro x
    rw [a4 x, d7 x]
    constructor
    · rintro (⟨hxc, hxd⟩ | ⟨n, hn, hnx⟩)
      · by_contra hxD
        rcases List.mem_map.mp hxc with ⟨n0, hn0, hn0x⟩
        have : n0 ∈ toDetachOf w node (p.getD []) := by
          rw [mem_toDetachOf]
          refine ⟨hn0, ?_⟩
          rw [hn0x]
          exact hxD
        exact hxd n0 this hn0x
      · rcases mem_toAttachOf.mp hn with ⟨hnd, _⟩
        rw [← hnx]
        exact List.mem_map_of_mem _ hnd
    · intro hxD
      rcases List.mem_map.mp hxD with ⟨n, hn, hnx⟩
      by_cases hxc : x ∈ attachedNetworkIds w node
      · refine Or.inl ⟨hxc, ?_⟩
        intro n' hn' hn'x
        rcases mem_toDetachOf.mp hn' with ⟨_, hn'D⟩
        rw [hn'x] at hn'D
        exact hn'D hxD
      · refine Or.inr ⟨n, ?_, hnx⟩
        rw [mem_toAttachOf]
        refine ⟨hn, ?_⟩
        rw [hnx]
        exact hxc

theorem run_of_empty_diff {w : World} {ref : String}
    {p : Option (List String)} {node : Node}
    (hnode : find_node w ref = some node)
    (hd : toDetachOf w node (p.getD []) = [])
    (ha : toAttachOf w node (p.getD []) = []) :
    run w ref p = .ok false w [] := by
  rw [run_eq_some hnode, hd, ha]
  rfl

/-- A successful run leaves a state in which the same run computes an
empty diff and therefore reports no change, no API calls, and an
unchanged world. -/
theorem run_idempotent {w : World} {ref : String} {p : Option (List String)}
    {node : Node} {ch : Bool} {w' : World} {tr : List Event}
    (hnode : find_node w ref = some node) (hinv : Inv w node)
    (hrun : run w ref p = .ok ch w' tr) :
    toDetachOf w' node (p.getD []) = [] ∧
    toAttachOf w' node (p.getD []) = [] ∧
    run w' ref p = .ok false w' [] := by
  obtain ⟨i1, i2, i3, i4⟩ := run_ok_spec hnode hinv hrun
  have hnode' : find_node w' ref = some node :=
    (find_node_congr ref i2).trans hnode
  have hdesired : desiredObjsOf w' (p.getD []) = desiredObjsOf w (p.getD []) :=
    desiredObjs_congr _ i3
  have hdet : toDetachOf w' node (p.getD []) = [] := by
    apply List.filter_eq_nil_iff.mpr
    intro n hn
    have hmemD : n.id ∈ (desiredObjsOf w' (p.getD [])).map Network.id := by
      rw [hdesired]
      exact (i4 n.id).mp (List.mem_map_of_mem _ hn)
    simpa using hmemD
  have hatt : toAttachOf w' node (p.getD []) = [] := by
    apply List.filter_eq_nil_iff.mpr
    intro n hn
    have hnw : n ∈ desiredObjsOf w (p.getD []) := by
      rw [← hdesired]
      exact hn
    have hmemA : n.id ∈ attachedNetworkIds w' node :=
      (i4 n.id).mpr (List.mem_map_of_mem _ hnw)
    simpa [attachedNetworkIds] using hmemA
  exact ⟨hdet, hatt, run_of_empty_diff hnode' hdet hatt⟩

/-- C1: Convergence — whenever reconcile(node, S) completes successfully in
a state satisfying the spec's data-model conventions, the set of network
ids derived from the node's physical ports (each port's tenant_vif_port_id
resolved to a network port and then to its network) equals exactly the set
of network ids matched by the desired list S. -/
theorem claim_C1_convergence {w : World} {ref : String}
    {p : Option (List String)} {node : Node} {ch : Bool} {w' : World}
    {tr : List Event}
    (hnode : find_node w ref = some node) (hinv : Inv w node)
    (hrun : run w ref p = .ok ch w' tr) (x : String) :
    x ∈ attachedNetworkIds w' node ↔
      x ∈ (desiredObjsOf w (p.getD [])).map Network.id :=
  (run_ok_spec hnode hinv hrun).2.2.2 x

/-- C2: Idempotence — running reconcile(node, S) immediately after a
successful reconcile(node, S) computes empty to_detach and to_attach sets
and returns changed = false, an unchanged world, and an empty call trace
(no mutating API call). -/
theorem claim_C2_idempotence {w : World} {ref : String}
    {p : Option (List String)} {node : Node} {ch : Bool} {w' : World}
    {tr : List Event}
    (hnode : find_node w ref = some node) (hinv : Inv w node)
    (hrun : run w ref p = .ok ch w' tr) :
    toDetachOf w' node (p.getD []) = [] ∧
    toAttachOf w' node (p.getD []) = [] ∧
    run w' ref p = .ok false w' [] :=
  run_idempotent hnode hinv hrun

/-- Concrete node used by the witnesses. -/
def Wnode : Node := ⟨"nid", "n"⟩

/-- Concrete networks used by the witnesses. -/
def WnetA : Network := ⟨"na", "A"⟩

def WnetB : Network := ⟨"nb", "B"⟩

/-- Witness world: one node, one network, one free physical port. -/
def W0 : World :=
  ⟨[Wnode], [WnetA], [], [⟨"b1", "nid", none⟩], 0⟩

/-- The world after running reconcile(W0 node, [A]). -/
def W1 : World :=
  ⟨[Wnode], [WnetA], [⟨0, "n-A", "na"⟩], [⟨"b1", "nid", some 0⟩], 1⟩

theorem claim_C1_convergence_witness :
    "na" ∈ attachedNetworkIds W1 Wnode ↔
      "na" ∈ (desiredObjsOf W0 ((some ["A"]).getD [])).map Network.id :=
  @claim_C1_convergence W0 "n" (some ["A"]) Wnode true W1
    [Event.createPortCall 0 "n-A" "na", Event.attachVifCall "nid" 0 "b1"]
    (by decide) (by decide) (by decide) "na"

theorem claim_C2_idempotence_witness :
    toDetachOf W1 Wnode ((some ["A"]).getD []) = [] ∧
    toAttachOf W1 Wnode ((some ["A"]).getD []) = [] ∧
    run W1 "n" (some ["A"]) = .ok false W1 [] :=
  @claim_C2_idempotence W0 "n" (some ["A"]) Wnode true W1
    [Event.createPortCall 0 "n-A" "na", Event.attachVifCall "nid" 0 "b1"]
    (by decide) (by decide) (by decide)

/-- The two VIF-level calls; the changed flag is set exactly when one of
these is issued. -/
def isVifCall : Event → Bool
  | .detachVifCall _ _ => true
  | .attachVifCall _ _ _ => true
  | _ => false

/-- Calls issued by the detach phase. -/
def isDetachPhaseCall : Event → Bool
  | .detachVifCall _ _ => true
  | .deletePortCall _ => true
  | _ => false

/-- Calls issued by the attach phase. -/
def isAttachPhaseCall : Event → Bool
  | .createPortCall _ _ _ => true
  | .attachVifCall _ _ _ => true
  | _ => false

/-- World component of an attach-phase result. -/
def AttachResult.world : AttachResult → World
  | .ok w _ _ => w
  | .exhausted _ _ w _ => w

/-- Trace component of an attach-phase result. -/
def AttachResult.trace : AttachResult → List Event
  | .ok _ _ tr => tr
  | .exhausted _ _ _ tr => tr

theorem applyEvents_append (w : World) (l1 l2 : List Event) :
    applyEvents w (l1 ++ l2) = applyEvents (applyEvents w l1) l2 :=
  List.foldl_append _ _ _ _

theorem detachLoop_changed_iff (node : Node) (bps : List BaremetalPort) :
    ∀ (L : List Network) (w : World),
    ((detachLoop node bps w L).2.1 = true ↔
      ∃ e ∈ (detachLoop node bps w L).2.2, isVifCall e = true) := by
  intro L
  induction L with
  | nil =>
    intro w
    simp [detachLoop]
  | cons net L ih =>
    intro w
    cases hfind : find_network_port w node.name net.name with
    | none => simpa [detachLoop, hfind] using ih w
    | some np =>
      cases hmatch : find_matching_baremetal_port bps np with
      | none => simpa [detachLoop, hfind, hmatch] using ih w
      | some bp0 =>
        simp only [detachLoop, hfind, hmatch]
        constructor
        · intro _
          exact ⟨Event.detachVifCall node.id np.id, List.mem_cons_self _ _,
            rfl⟩
        · intro _
          trivial

theorem attachLoop_ok_changed_iff (node : Node) :
    ∀ (L : List Network) (w : World) (wf : World) (ch : Bool)
      (tr : List Event), attachLoop node w L = .ok wf ch tr →
    (ch = true ↔ ∃ e ∈ tr, isVifCall e = true) := by
  intro L
  induction L with
  | nil =>
    intro w wf ch tr h
    simp only [attachLoop] at h
    cases h
    simp
  | cons net L ih =>
    intro w wf ch tr h
    cases hfind : find_network_port w node.name net.name with
    | some np =>
      cases hmatch : find_matching_baremetal_port
          (baremetalPortsOf w node.id) np with
      | some bp1 =>
        simp only [attachLoop, hfind, hmatch] at h
        exact ih w wf ch tr h
      | none =>
        cases hfree : find_free_baremetal_port (baremetalPortsOf w node.id)
          with
        | none =>
          simp only [attachLoop, hfind, hmatch, hfree] at h
          exact AttachResult.noConfusion h
        | some bp =>
          simp only [attachLoop, hfind, hmatch, hfree] at h
          cases hrec : attachLoop node (attach_vif w node.id np.id bp.id) L
            with
          | exhausted a b wf2 tr2 =>
            rw [hrec] at h
            exact AttachResult.noConfusion h
          | ok wf2 ch2 tr2 =>
            rw [hrec] at h
            cases h
            constructor
            · intro _
              exact ⟨Event.attachVifCall node.id np.id bp.id,
                List.mem_cons_self _ _, rfl⟩
            · intro _
              trivial
    | none =>
      cases hmatch : find_matching_baremetal_port (baremetalPortsOf w node.id)
          (create_port w (portName node.name net.name) net.id).1 with
      | some bp1 =>
        simp only [attachLoop, hfind, hmatch] at h
        cases hrec : attachLoop node
            (create_port w (portName node.name net.name) net.id).2 L with
        | exhausted a b wf2 tr2 =>
          rw [hrec] at h
          exact AttachResult.noConfusion h
        | ok wf2 ch2 tr2 =>
          rw [hrec] at h
          cases h
          rw [ih _ _ _ _ hrec]
          constructor
          · rintro ⟨e, he, hv⟩
            exact ⟨e, List.mem_cons_of_mem _ he, hv⟩
          · rintro ⟨e, he, hv⟩
            rcases List.mem_cons.mp he with rfl | he
            · exact absurd hv (by simp [isVifCall])
            · exact ⟨e, he, hv⟩
      | none =>
        cases hfree : find_free_baremetal_port (baremetalPortsOf w node.id)
          with
        | none =>
          simp only [attachLoop, hfind, hmatch, hfree] at h
          exact AttachResult.noConfusion h
        | some bp =>
          simp only [attachLoop, hfind, hmatch, hfree] at h
          cases hrec : attachLoop node
              (attach_vif (create_port w (portName node.name net.name)
                net.id).2 node.id
                (create_port w (portName node.name net.name) net.id).1.id
                bp.id) L with
          | exhausted a b wf2 tr2 =>
            rw [hrec] at h
            exact AttachResult.noConfusion h
          | ok wf2 ch2 tr2 =>
            rw [hrec] at h
            cases h
            constructor
            · intro _
              refine ⟨Event.attachVifCall node.id
                (create_port w (portName node.name net.name) net.id).1.id
                bp.id, ?_, rfl⟩
              exact List.mem_cons_of_mem _ (List.mem_cons_self _ _)
            · intro _
              trivial

theorem detachLoop_trace_kinds (node : Node) (bps : List BaremetalPort) :
    ∀ (L : List Network) (w : World),
    ∀ e ∈ (detachLoop node bps w L).2.2, isDetachPhaseCall e = true := by
  intro L
  induction L with
  | nil =>
    intro w e he
    simp [detachLoop] at he
  | cons net L ih =>
    intro w e he
    cases hfind : find_network_port w node.name net.name with
    | none =>
      rw [show detachLoop node bps w (net :: L) = detachLoop node bps w L by
        simp [detachLoop, hfind]] at he
      exact ih w e he
    | some np =>
      cases hmatch : find_matching_baremetal_port bps np with
      | none =>
        rw [show detachLoop node bps w (net :: L) = detachLoop node bps w L by
          simp [detachLoop, hfind, hmatch]] at he
        exact ih w e he
      | some bp0 =>
        simp only [detachLoop, hfind, hmatch] at he
        rcases List.mem_cons.mp he with rfl | he
        · rfl
        rcases List.mem_cons.mp he with rfl | he
        · rfl
        · exact ih _ e he

theorem attachLoop_trace_kinds (node : Node) :
    ∀ (L : List Network) (w : World),
    ∀ e ∈ (attachLoop node w L).trace, isAttachPhaseCall e = true := by
  intro L
  induction L with
  | nil =>
    intro w e he
    simp [attachLoop, AttachResult.trace] at he
  | cons net L ih =>
    intro w e he
    cases hfind : find_network_port w node.name net.name with
    | some np =>
      cases hmatch : find_matching_baremetal_port
          (baremetalPortsOf w node.id) np with
      | some bp1 =>
        simp only [attachLoop, hfind, hmatch] at he
        exact ih w e he
      | none =>
        cases hfree : find_free_baremetal_port (baremetalPortsOf w node.id)
          with
        | none =>
          simp only [attachLoop, hfind, hmatch, hfree,
            AttachResult.trace] at he
          exact absurd he (List.not_mem_nil e)
        | some bp =>
          simp only [attachLoop, hfind, hmatch, hfree] at he
          cases hrec : attachLoop node (attach_vif w node.id np.id bp.id) L
            with
          | ok wf2 ch3 tr2 =>
            rw [hrec] at he
            simp only [AttachResult.trace] at he
            rcases List.mem_cons.mp he with rfl | he
            · rfl
            · have := ih (attach_vif w node.id np.id bp.id) e
              rw [hrec] at this
              exact this he
          | exhausted a b wf2 tr2 =>
            rw [hrec] at he
            simp only [AttachResult.trace] at he
            rcases List.mem_cons.mp he with rfl | he
            · rfl
            · have := ih (attach_vif w node.id np.id bp.id) e
              rw [hrec] at this
              exact this he
    | none =>
      cases hmatch : find_matching_baremetal_port (baremetalPortsOf w node.id)
          (create_port w (portName node.name net.name) net.id).1 with
      | some bp1 =>
        simp only [attachLoop, hfind, hmatch] at he
        cases hrec : attachLoop node
            (create_port w (portName node.name net.name) net.id).2 L with
        | ok wf2 ch2 tr2 =>
          rw [hrec] at he
          simp only [AttachResult.trace] at he
          rcases List.mem_cons.mp he with rfl | he
          · rfl
          · have := ih (create_port w (portName node.name net.name) net.id).2
              e
            rw [hrec] at this
            exact this he
        | exhausted a b wf2 tr2 =>
          rw [hrec] at he
          simp only [AttachResult.trace] at he
          rcases List.mem_cons.mp he with rfl | he
          · rfl
          · have := ih (create_port w (portName node.name net.name) net.id).2
              e
            rw [hrec] at this
            exact this he
      | none =>
        cases hfree : find_free_baremetal_port (baremetalPortsOf w node.id)
          with
        | none =>
          simp only [attachLoop, hfind, hmatch, hfree,
            AttachResult.trace] at he
          rcases List.mem_cons.mp he with rfl | he
          · rfl
          · simp at he
        | some bp =>
          simp only [attachLoop, hfind, hmatch, hfree] at he
          cases hrec : attachLoop node
              (attach_vif (create_port w (portName node.name net.name)
                net.id).2 node.id
                (create_port w (portName node.name net.name) net.id).1.id
                bp.id) L with
          | ok wf2 ch2 tr2 =>
            rw [hrec] at he
            simp only [AttachResult.trace] at he
            rcases List.mem_cons.mp he with rfl | he
            · rfl
            rcases List.mem_cons.mp he with rfl | he
            · rfl
            · have := ih (attach_vif (create_port w
                (portName node.name net.name) net.id).2 node.id
                (create_port w (portName node.name net.name) net.id).1.id
                bp.id) e
              rw [hrec] at this
              exact this he
          | exhausted a b wf2 tr2 =>
            rw [hrec] at he
            simp only [AttachResult.trace] at he
            rcases List.mem_cons.mp he with rfl | he
            · rfl
            rcases List.mem_cons.mp he with rfl | he
            · rfl
            · have := ih (attach_vif (create_port w
                (portName node.name net.name) net.id).2 node.id
                (create_port w (portName node.name net.name) net.id).1.id
                bp.id) e
              rw [hrec] at this
              exact this he

theorem detachLoop_applyEvents (node : Node) (bps : List BaremetalPort) :
    ∀ (L : List Network) (w : World),
    (detachLoop node bps w L).1 =
      applyEvents w (detachLoop node bps w L).2.2 := by
  intro L
  induction L with
  | nil =>
    intro w
    rfl
  | cons net L ih =>
    intro w
    cases hfind : find_network_port w node.name net.name with
    | none =>
      simpa [detachLoop, hfind] using ih w
    | some np =>
      cases hmatch : find_matching_baremetal_port bps np with
      | none =>
        simpa [detachLoop, hfind, hmatch] using ih w
      | some bp0 =>
        simp only [detachLoop, hfind, hmatch]
        exact ih (delete_port (detach_vif w node.id np.id) np.id)

theorem attachLoop_applyEvents (node : Node) :
    ∀ (L : List Network) (w : World),
    (attachLoop node w L).world =
      applyEvents w (attachLoop node w L).trace := by
  intro L
  induction L with
  | nil =>
    intro w
    rfl
  | cons net L ih =>
    intro w
    cases hfind : find_network_port w node.name net.name with
    | some np =>
      cases hmatch : find_matching_baremetal_port
          (baremetalPortsOf w node.id) np with
      | some bp1 =>
        simp only [attachLoop, hfind, hmatch]
        exact ih w
      | none =>
        cases hfree : find_free_baremetal_port (baremetalPortsOf w node.id)
          with
        | none =>
          simp [attachLoop, hfind, hmatch, hfree, AttachResult.world,
            AttachResult.trace, applyEvents]
        | some bp =>
          simp only [attachLoop, hfind, hmatch, hfree]
          have hrec := ih (attach_vif w node.id np.id bp.id)
          cases hr : attachLoop node (attach_vif w node.id np.id bp.id) L
            with
          | ok wf2 ch2 tr2 =>
            rw [hr] at hrec
            simp only [AttachResult.world, AttachResult.trace] at hrec ⊢
            exact hrec
          | exhausted a b wf2 tr2 =>
            rw [hr] at hrec
            simp only [AttachResult.world, AttachResult.trace] at hrec ⊢
            exact hrec
    | none =>
      cases hmatch : find_matching_baremetal_port (baremetalPortsOf w node.id)
          (create_port w (portName node.name net.name) net.id).1 with
      | some bp1 =>
        simp only [attachLoop, hfind, hmatch]
        have hrec := ih (create_port w (portName node.name net.name) net.id).2
        cases hr : attachLoop node
            (create_port w (portName node.name net.name) net.id).2 L with
        | ok wf2 ch2 tr2 =>
          rw [hr] at hrec
          simp only [AttachResult.world, AttachResult.trace] at hrec ⊢
          exact hrec
        | exhausted a b wf2 tr2 =>
          rw [hr] at hrec
          simp only [AttachResult.world, AttachResult.trace] at hrec ⊢
          exact hrec
      | none =>
        cases hfree : find_free_baremetal_port (baremetalPortsOf w node.id)
          with
        | none =>
          simp only [attachLoop, hfind, hmatch, hfree, AttachResult.world,
            AttachResult.trace]
          rfl
        | some bp =>
          simp only [attachLoop, hfind, hmatch, hfree]
          have hrec := ih (attach_vif
            (create_port w (portName node.name net.name) net.id).2 node.id
            (create_port w (portName node.name net.name) net.id).1.id bp.id)
          cases hr : attachLoop node (attach_vif
              (create_port w (portName node.name net.name) net.id).2 node.id
              (create_port w (portName node.name net.name) net.id).1.id
              bp.id) L with
          | ok wf2 ch2 tr2 =>
            rw [hr] at hrec
            simp only [AttachResult.world, AttachResult.trace] at hrec ⊢
            exact hrec
          | exhausted a b wf2 tr2 =>
            rw [hr] at hrec
            simp only [AttachResult.world, AttachResult.trace] at hrec ⊢
            exact hrec

theorem attachLoop_exhausted_name (node : Node) :
    ∀ (L : List Network) (w : World) (nid nn : String) (wx : World)
      (trx : List Event),
    attachLoop node w L = .exhausted nid nn wx trx →
    nid = node.id ∧ ∃ net ∈ L, nn = net.name := by
  intro L
  induction L with
  | nil =>
    intro w nid nn wx trx h
    simp only [attachLoop] at h
    exact AttachResult.noConfusion h
  | cons net L ih =>
    intro w nid nn wx trx h
    cases hfind : find_network_port w node.name net.name with
    | some np =>
      cases hmatch : find_matching_baremetal_port
          (baremetalPortsOf w node.id) np with
      | some bp1 =>
        simp only [attachLoop, hfind, hmatch] at h
        obtain ⟨h1, net', hnet', h2⟩ := ih w nid nn wx trx h
        exact ⟨h1, net', List.mem_cons_of_mem _ hnet', h2⟩
      | none =>
        cases hfree : find_free_baremetal_port (baremetalPortsOf w node.id)
          with
        | none =>
          simp only [attachLoop, hfind, hmatch, hfree] at h
          injection h with e1 e2 e3 e4
          exact ⟨e1.symm, net, List.mem_cons_self _ _, e2.symm⟩
        | some bp =>
          simp only [attachLoop, hfind, hmatch, hfree] at h
          cases hrec : attachLoop node (attach_vif w node.id np.id bp.id) L
            with
          | ok wf2 ch2 tr2 =>
            rw [hrec] at h
            exact AttachResult.noConfusion h
          | exhausted a b wf2 tr2 =>
            rw [hrec] at h
            injection h with e1 e2 e3 e4
            obtain ⟨h1, net', hnet', h2⟩ := ih _ a b wf2 tr2 hrec
            exact ⟨e1 ▸ h1, net', List.mem_cons_of_mem _ hnet', e2 ▸ h2⟩
    | none =>
      cases hmatch : find_matching_baremetal_port (baremetalPortsOf w node.id)
          (create_port w (portName node.name net.name) net.id).1 with
      | some bp1 =>
        simp only [attachLoop, hfind, hmatch] at h
        cases hrec : attachLoop node
            (create_port w (portName node.name net.name) net.id).2 L with
        | ok wf2 ch2 tr2 =>
          rw [hrec] at h
          exact AttachResult.noConfusion h
        | exhausted a b wf2 tr2 =>
          rw [hrec] at h
          injection h with e1 e2 e3 e4
          obtain ⟨h1, net', hnet', h2⟩ := ih _ a b wf2 tr2 hrec
          exact ⟨e1 ▸ h1, net', List.mem_cons_of_mem _ hnet', e2 ▸ h2⟩
      | none =>
        cases hfree : find_free_baremetal_port (baremetalPortsOf w node.id)
          with
        | none =>
          simp only [attachLoop, hfind, hmatch, hfree] at h
          injection h with e1 e2 e3 e4
          exact ⟨e1.symm, net, List.mem_cons_self _ _, e2.symm⟩
        | some bp =>
          simp only [attachLoop, hfind, hmatch, hfree] at h
          cases hrec : attachLoop node (attach_vif
              (create_port w (portName node.name net.name) net.id).2 node.id
              (create_port w (portName node.name net.name) net.id).1.id
              bp.id) L with
          | ok wf2 ch2 tr2 =>
            rw [hrec] at h
            exact AttachResult.noConfusion h
          | exhausted a b wf2 tr2 =>
            rw [hrec] at h
            injection h with e1 e2 e3 e4
            obtain ⟨h1, net', hnet', h2⟩ := ih _ a b wf2 tr2 hrec
            exact ⟨e1 ▸ h1, net', List.mem_cons_of_mem _ hnet', e2 ▸ h2⟩

/-- C5: NotFound atomicity — when the node reference does not resolve,
run returns NotFound, a result carrying no changed flag, no world and no
call trace: the failure happens before any state-mutating API call. -/
theorem claim_C5_notfound {w : World} {ref : String}
    {p : Option (List String)} (h : find_node w ref = none) :
    run w ref p = RunResult.notFound :=
  run_eq_none h

theorem claim_C5_notfound_witness :
    run W0 "zzz" (some ["A"]) = RunResult.notFound :=
  claim_C5_notfound (by decide)

/-- C10: reconcile reports changed = true exactly when at least one VIF
attach or VIF detach call appears in the run's call trace; iterations that
skip (already-carried port, or either detach no-op branch) leave the flag
untouched, and a createPortCall alone does not set it. -/
theorem claim_C10_changed_iff {w : World} {ref : String}
    {p : Option (List String)} {ch : Bool} {w' : World} {tr : List Event}
    (hrun : run w ref p = .ok ch w' tr) :
    ch = true ↔ ∃ e ∈ tr, isVifCall e = true := by
  cases hn : find_node w ref with
  | none =>
    rw [run_eq_none hn] at hrun
    exact RunResult.noConfusion hrun
  | some node =>
    rw [run_eq_some hn] at hrun
    cases hatt : attachLoop node
        (detachLoop node (baremetalPortsOf w node.id) w
          (toDetachOf w node (p.getD []))).1
        (toAttachOf w node (p.getD [])) with
    | exhausted a b w2 tr2 =>
      simp only [hatt] at hrun
      exact RunResult.noConfusion hrun
    | ok w2 ch2 tr2 =>
      simp only [hatt] at hrun
      injection hrun with hch hw htr
      rw [← hch, ← htr]
      rw [Bool.or_eq_true]
      have hd := detachLoop_changed_iff node (baremetalPortsOf w node.id)
        (toDetachOf w node (p.getD [])) w
      have ha := attachLoop_ok_changed_iff node (toAttachOf w node (p.getD []))
        _ w2 ch2 tr2 hatt
      constructor
      · rintro (h | h)
        · rcases hd.mp h with ⟨e, he, hv⟩
          exact ⟨e, List.mem_append_left _ he, hv⟩
        · rcases ha.mp h with ⟨e, he, hv⟩
          exact ⟨e, List.mem_append_right _ he, hv⟩
      · rintro ⟨e, he, hv⟩
        rcases List.mem_append.mp he with he | he
        · exact Or.inl (hd.mpr ⟨e, he, hv⟩)
        · exact Or.inr (ha.mpr ⟨e, he, hv⟩)

theorem claim_C10_changed_iff_witness :
    (true : Bool) = true ↔
      ∃ e ∈ [Event.createPortCall 0 "n-A" "na",
             Event.attachVifCall "nid" 0 "b1"], isVifCall e = true :=
  @claim_C10_changed_iff W0 "n" (some ["A"]) true W1
    [Event.createPortCall 0 "n-A" "na", Event.attachVifCall "nid" 0 "b1"]
    (by decide)

/-- C4: Port exhaustion — whenever a run fails with the no-free-ports
error, the error names the node's id and the name of a network from the
to-attach list, no changed flag is reported (the exhausted result carries
none), and the final world equals the original world with exactly the
already-issued calls applied: nothing performed earlier in the run is
rolled back, and no further call follows the recorded trace. -/
theorem claim_C4_port_exhausted {w : World} {ref : String}
    {p : Option (List String)} {nid nn : String} {w' : World}
    {tr : List Event}
    (hrun : run w ref p = .exhausted nid nn w' tr) :
    ∃ node, find_node w ref = some node ∧ nid = node.id ∧
      (∃ net ∈ toAttachOf w node (p.getD []), nn = net.name) ∧
      w' = applyEvents w tr := by
  cases hn : find_node w ref with
  | none =>
    rw [run_eq_none hn] at hrun
    exact RunResult.noConfusion hrun
  | some node =>
    rw [run_eq_some hn] at hrun
    cases hatt : attachLoop node
        (detachLoop node (baremetalPortsOf w node.id) w
          (toDetachOf w node (p.getD []))).1
        (toAttachOf w node (p.getD [])) with
    | ok w2 ch2 tr2 =>
      simp only [hatt] at hrun
      exact RunResult.noConfusion hrun
    | exhausted a b w2 tr2 =>
      simp only [hatt] at hrun
      injection hrun with e1 e2 e3 e4
      obtain ⟨hnid, net', hm, hname⟩ :=
        attachLoop_exhausted_name node _ _ a b w2 tr2 hatt
      refine ⟨node, rfl, e1 ▸ hnid, ⟨net', hm, e2 ▸ hname⟩, ?_⟩
      have h1 := detachLoop_applyEvents node (baremetalPortsOf w node.id)
        (toDetachOf w node (p.getD [])) w
      have h2 := attachLoop_applyEvents node (toAttachOf w node (p.getD []))
        (detachLoop node (baremetalPortsOf w node.id) w
          (toDetachOf w node (p.getD []))).1
      rw [hatt] at h2
      simp only [AttachResult.world, AttachResult.trace] at h2
      rw [← e3, ← e4, applyEvents_append, ← h1]
      exact h2

/-- Witness world for the exhaustion claims: network A attached on the
node's only physical port, network B desired but no free port. -/
def W4 : World :=
  ⟨[Wnode], [WnetA, WnetB], [⟨0, "n-A", "na"⟩], [⟨"b2", "nid", some 0⟩], 1⟩

/-- The world left behind by the failing run on W4: the network port for B
has been created but never attached and never deleted. -/
def W4e : World :=
  ⟨[Wnode], [WnetA, WnetB], [⟨0, "n-A", "na"⟩, ⟨1, "n-B", "nb"⟩],
    [⟨"b2", "nid", some 0⟩], 2⟩

theorem claim_C4_port_exhausted_witness :
    ∃ node, find_node W4 "n" = some node ∧ "nid" = node.id ∧
      (∃ net ∈ toAttachOf W4 node ((some ["A", "B"]).getD []),
        "B" = net.name) ∧
      W4e = applyEvents W4 [Event.createPortCall 1 "n-B" "nb"] :=
  @claim_C4_port_exhausted W4 "n" (some ["A", "B"]) "nid" "B" W4e
    [Event.createPortCall 1 "n-B" "nb"] (by decide)

/-- C9: when an attach iteration finds no pre-existing network port, the
port is created before the free-port check; a run that then fails with
exhaustion stops right there, leaving the freshly created port in the
final world, carried by no physical port, never attached and never
deleted — the failure is not atomic with respect to the iteration. -/
theorem claim_C9_leaked_port {w : World} {node : Node} {net : Network}
    {rest : List Network}
    (hfind : find_network_port w node.name net.name = none)
    (hfree : find_free_baremetal_port (baremetalPortsOf w node.id) = none)
    (hvifs : ∀ bp ∈ w.baremetalPorts, ∀ v, bp.tenant_vif_port_id = some v →
      v < w.nextPortId) :
    attachLoop node w (net :: rest) =
      .exhausted node.id net.name
        (create_port w (portName node.name net.name) net.id).2
        [Event.createPortCall w.nextPortId (portName node.name net.name)
          net.id] ∧
    (⟨w.nextPortId, portName node.name net.name, net.id⟩ : NetworkPort) ∈
      (create_port w (portName node.name net.name) net.id).2.networkPorts ∧
    (∀ bp ∈ (create_port w (portName node.name net.name)
        net.id).2.baremetalPorts,
      bp.tenant_vif_port_id ≠ some w.nextPortId) := by
  have hmatchc : find_matching_baremetal_port (baremetalPortsOf w node.id)
      (create_port w (portName node.name net.name) net.id).1 = none := by
    apply List.find?_eq_none.mpr
    intro bp hbp
    rw [create_port_fst]
    simp only [decide_eq_true_eq]
    intro hc
    exact absurd (hvifs bp (mem_baremetalPortsOf.mp hbp).1 w.nextPortId hc)
      (Nat.lt_irrefl _)
  refine ⟨?_, ?_, ?_⟩
  · simp only [attachLoop, hfind, hmatchc, hfree]
    rfl
  · rw [create_port_networkPorts]
    exact List.mem_append_right _ (List.mem_singleton_self _)
  · intro bp hbp hc
    rw [create_port_baremetalPorts] at hbp
    exact absurd (hvifs bp hbp w.nextPortId hc) (Nat.lt_irrefl _)

theorem claim_C9_leaked_port_witness :
    attachLoop Wnode W4 [WnetB] =
      .exhausted Wnode.id WnetB.name
        (create_port W4 (portName Wnode.name WnetB.name) WnetB.id).2
        [Event.createPortCall W4.nextPortId
          (portName Wnode.name WnetB.name) WnetB.id] ∧
    (⟨W4.nextPortId, portName Wnode.name WnetB.name, WnetB.id⟩ :
        NetworkPort) ∈
      (create_port W4 (portName Wnode.name WnetB.name)
        WnetB.id).2.networkPorts ∧
    (∀ bp ∈ (create_port W4 (portName Wnode.name WnetB.name)
        WnetB.id).2.baremetalPorts,
      bp.tenant_vif_port_id ≠ some W4.nextPortId) :=
  @claim_C9_leaked_port W4 Wnode WnetB [] (by decide) (by decide) (by decide)

theorem desiredObjs_nil (w : World) : desiredObjsOf w [] = [] := by
  unfold desiredObjsOf
  simp

theorem desiredObjs_nomatch {w : World} {refs : List String}
    (h : ∀ net ∈ w.networks, net.name ∉ refs ∧ net.id ∉ refs) :
    desiredObjsOf w refs = [] := by
  unfold desiredObjsOf
  apply List.filter_eq_nil_iff.mpr
  intro n hn
  intro hcontra
  rw [Bool.or_eq_true] at hcontra
  rcases h n hn with ⟨h1, h2⟩
  rcases hcontra with hc | hc
  · exact h1 (contains_iff.mp hc)
  · exact h2 (contains_iff.mp hc)

theorem toDetachOf_congr {w : World} {node : Node} {a b : List String}
    (h : desiredObjsOf w a = desiredObjsOf w b) :
    toDetachOf w node a = toDetachOf w node b := by
  unfold toDetachOf
  rw [h]

theorem toAttachOf_congr {w : World} {node : Node} {a b : List String}
    (h : desiredObjsOf w a = desiredObjsOf w b) :
    toAttachOf w node a = toAttachOf w node b := by
  unfold toAttachOf
  rw [h]

theorem toAttach_nil (w : World) (node : Node) : toAttachOf w node [] = [] := by
  unfold toAttachOf
  rw [desiredObjs_nil]
  rfl

theorem detach_not_attach_kind {e : Event} (h : isDetachPhaseCall e = true) :
    isAttachPhaseCall e = false := by
  cases e <;> simp [isDetachPhaseCall, isAttachPhaseCall] at h ⊢

/-- C3: a desired list matching no network — including the unknown
reference list, the empty list, and the absent parameter — makes reconcile
behave exactly like reconcile with the empty list: it succeeds, detaches
every currently attached (derivable) network, and issues no attach-phase
call. -/
theorem claim_C3_empty_equivalence {w : World} {ref : String}
    {refs : List String} {node : Node}
    (hnode : find_node w ref = some node) (hinv : Inv w node)
    (hnomatch : ∀ net ∈ w.networks, net.name ∉ refs ∧ net.id ∉ refs) :
    run w ref (some refs) = run w ref (some []) ∧
    run w ref none = run w ref (some []) ∧
    ∃ ch w' tr, run w ref (some []) = .ok ch w' tr ∧
      (∀ x, x ∉ attachedNetworkIds w' node) ∧
      (∀ e ∈ tr, isAttachPhaseCall e = false) := by
  have hde : desiredObjsOf w refs = desiredObjsOf w [] := by
    rw [desiredObjs_nomatch hnomatch, desiredObjs_nil]
  refine ⟨?_, ?_, ?_⟩
  · rw [run_eq_some hnode, run_eq_some hnode]
    simp only [Option.getD_some]
    rw [toDetachOf_congr hde, toAttachOf_congr hde]
  · rw [run_eq_some hnode, run_eq_some hnode]
    simp only [Option.getD_none, Option.getD_some]
  · have hta : toAttachOf w node [] = [] := toAttach_nil w node
    have hrun0 : run w ref (some []) = .ok
        (detachLoop node (baremetalPortsOf w node.id) w
          (toDetachOf w node [])).2.1
        (detachLoop node (baremetalPortsOf w node.id) w
          (toDetachOf w node [])).1
        (detachLoop node (baremetalPortsOf w node.id) w
          (toDetachOf w node [])).2.2 := by
      rw [run_eq_some hnode]
      simp only [Option.getD_some]
      rw [hta]
      simp only [attachLoop, Bool.or_false, List.append_nil]
    refine ⟨_, _, _, hrun0, ?_, ?_⟩
    · intro x hx
      have hiff := (run_ok_spec hnode hinv hrun0).2.2.2 x
      rw [hiff] at hx
      simp only [Option.getD_some, desiredObjs_nil] at hx
      simp at hx
    · intro e he
      exact detach_not_attach_kind
        (detachLoop_trace_kinds node (baremetalPortsOf w node.id)
          (toDetachOf w node []) w e he)

theorem claim_C3_empty_equivalence_witness :
    run W4 "n" (some ["does-not-exist"]) = run W4 "n" (some []) ∧
    run W4 "n" none = run W4 "n" (some []) ∧
    ∃ ch w' tr, run W4 "n" (some []) = .ok ch w' tr ∧
      (∀ x, x ∉ attachedNetworkIds w' Wnode) ∧
      (∀ e ∈ tr, isAttachPhaseCall e = false) :=
  @claim_C3_empty_equivalence W4 "n" ["does-not-exist"] Wnode
    (by decide) (by decide) (by decide)

theorem find?_eq_some_first {α : Type} {p : α → Bool} {l : List α} {a : α}
    (h : l.find? p = some a) :
    ∃ l1 l2, l = l1 ++ a :: l2 ∧ (∀ b ∈ l1, p b = false) ∧ p a = true := by
  induction l with
  | nil => simp [List.find?] at h
  | cons x xs ih =>
    by_cases hx : p x
    · rw [List.find?_cons_of_pos _ hx] at h
      injection h with h
      subst h
      exact ⟨[], xs, rfl, by simp, hx⟩
    · rw [List.find?_cons_of_neg _ hx] at h
      obtain ⟨l1, l2, rfl, h1, h2⟩ := ih h
      refine ⟨x :: l1, l2, rfl, ?_, h2⟩
      intro b hb
      rcases List.mem_cons.mp hb with rfl | hb
      · exact Bool.eq_false_iff.mpr hx
      · exact h1 b hb

/-- C7: attach-step mechanics — each attach iteration works against the
re-fetched physical ports of the live world; the network port it uses
carries the deterministic name (and, when created, is bound to the
network); if a physical port already carries that network port's id the
iteration is a pure skip; otherwise the VIF is attached to the first
physical port in fetch order whose metadata lacks the tenant_vif_port_id
key. -/
theorem claim_C7_attach_mechanics (node : Node) (w : World) (net : Network)
    (rest : List Network) :
    (∀ np, find_network_port w node.name net.name = some np →
      np.name = portName node.name net.name) ∧
    (find_network_port w node.name net.name = none →
      (create_port w (portName node.name net.name) net.id).1.name =
        portName node.name net.name ∧
      (create_port w (portName node.name net.name) net.id).1.network_id =
        net.id) ∧
    (∀ np bp1, find_network_port w node.name net.name = some np →
      find_matching_baremetal_port (baremetalPortsOf w node.id) np =
        some bp1 →
      attachLoop node w (net :: rest) = attachLoop node w rest) ∧
    (∀ bp, find_free_baremetal_port (baremetalPortsOf w node.id) = some bp →
      bp.tenant_vif_port_id = none ∧
      ∃ l1 l2, baremetalPortsOf w node.id = l1 ++ bp :: l2 ∧
        ∀ b ∈ l1, b.tenant_vif_port_id ≠ none) ∧
    (∀ np bp, find_network_port w node.name net.name = some np →
      find_matching_baremetal_port (baremetalPortsOf w node.id) np = none →
      find_free_baremetal_port (baremetalPortsOf w node.id) = some bp →
      attachLoop node w (net :: rest) =
        match attachLoop node (attach_vif w node.id np.id bp.id) rest with
        | .ok wf _ tr =>
            .ok wf true (Event.attachVifCall node.id np.id bp.id :: tr)
        | .exhausted a b wf tr =>
            .exhausted a b wf
              (Event.attachVifCall node.id np.id bp.id :: tr)) := by
  refine ⟨?_, ?_, ?_, ?_, ?_⟩
  · intro np h
    exact (find_network_port_mem h).2
  · intro _
    exact ⟨rfl, rfl⟩
  · intro np bp1 h1 h2
    simp [attachLoop, h1, h2]
  · intro bp hfree
    have hfr : bp.tenant_vif_port_id = none := by
      simpa using List.find?_some hfree
    refine ⟨hfr, ?_⟩
    obtain ⟨l1, l2, heq, h1, _⟩ := find?_eq_some_first hfree
    refine ⟨l1, l2, heq, ?_⟩
    intro b hb
    have := h1 b hb
    simpa using this
  · intro np bp h1 h2 h3
    simp only [attachLoop, h1, h2, h3]

theorem claim_C7_attach_mechanics_witness :
    (∀ np, find_network_port W0 Wnode.name WnetA.name = some np →
      np.name = portName Wnode.name WnetA.name) ∧
    (find_network_port W0 Wnode.name WnetA.name = none →
      (create_port W0 (portName Wnode.name WnetA.name) WnetA.id).1.name =
        portName Wnode.name WnetA.name ∧
      (create_port W0 (portName Wnode.name WnetA.name)
        WnetA.id).1.network_id = WnetA.id) ∧
    (∀ np bp1, find_network_port W0 Wnode.name WnetA.name = some np →
      find_matching_baremetal_port (baremetalPortsOf W0 Wnode.id) np =
        some bp1 →
      attachLoop Wnode W0 (WnetA :: []) = attachLoop Wnode W0 []) ∧
    (∀ bp, find_free_baremetal_port (baremetalPortsOf W0 Wnode.id) =
        some bp →
      bp.tenant_vif_port_id = none ∧
      ∃ l1 l2, baremetalPortsOf W0 Wnode.id = l1 ++ bp :: l2 ∧
        ∀ b ∈ l1, b.tenant_vif_port_id ≠ none) ∧
    (∀ np bp, find_network_port W0 Wnode.name WnetA.name = some np →
      find_matching_baremetal_port (baremetalPortsOf W0 Wnode.id) np =
        none →
      find_free_baremetal_port (baremetalPortsOf W0 Wnode.id) = some bp →
      attachLoop Wnode W0 (WnetA :: []) =
        match attachLoop Wnode (attach_vif W0 Wnode.id np.id bp.id) [] with
        | .ok wf _ tr =>
            .ok wf true (Event.attachVifCall Wnode.id np.id bp.id :: tr)
        | .exhausted a b wf tr =>
            .exhausted a b wf
              (Event.attachVifCall Wnode.id np.id bp.id :: tr)) :=
  claim_C7_attach_mechanics Wnode W0 WnetA []

theorem detachLoop_preserves_uncarried (node : Node)
    (bps : List BaremetalPort) :
    ∀ (L : List Network) (w : World) (np : NetworkPort),
    np ∈ w.networkPorts → (w.networkPorts.map NetworkPort.id).Nodup →
    find_matching_baremetal_port bps np = none →
    np ∈ (detachLoop node bps w L).1.networkPorts := by
  intro L
  induction L with
  | nil =>
    intro w np hmem _ _
    exact hmem
  | cons net L ih =>
    intro w np hmem hnodup hmatch
    cases hfind : find_network_port w node.name net.name with
    | none =>
      rw [show detachLoop node bps w (net :: L) = detachLoop node bps w L by
        simp [detachLoop, hfind]]
      exact ih w np hmem hnodup hmatch
    | some np2 =>
      cases hmatch2 : find_matching_baremetal_port bps np2 with
      | none =>
        rw [show detachLoop node bps w (net :: L) = detachLoop node bps w L by
          simp [detachLoop, hfind, hmatch2]]
        exact ih w np hmem hnodup hmatch
      | some bp0 =>
        have hne : np ≠ np2 := by
          intro heq
          rw [← heq] at hmatch2
          rw [hmatch2] at hmatch
          exact Option.noConfusion hmatch
        have hnp2mem : np2 ∈ w.networkPorts := (find_network_port_mem hfind).1
        have hidne : np.id ≠ np2.id := by
          intro hideq
          exact hne (List.inj_on_of_nodup_map hnodup hmem hnp2mem hideq)
        have heq1 : (detachLoop node bps w (net :: L)).1 =
            (detachLoop node bps
              (delete_port (detach_vif w node.id np2.id) np2.id) L).1 := by
          simp [detachLoop, hfind, hmatch2]
        rw [heq1]
        refine ih _ np ?_ ?_ hmatch
        · rw [delete_port_networkPorts, detach_vif_networkPorts]
          rw [List.mem_filter]
          exact ⟨hmem, by simpa using hidne⟩
        · rw [delete_port_networkPorts, detach_vif_networkPorts]
          exact ((List.filter_sublist _).map NetworkPort.id).nodup hnodup

/-- C8: benign skipping of stale state — a physical port whose VIF resolves
to no network port contributes nothing; a network port whose network_id
matches no network contributes nothing; a to-detach network with no
deterministically named port is a pure skip; a named port carried by no
snapshot physical port is a pure skip and, with unique port ids, that
orphaned port survives the whole detach phase undeleted. -/
theorem claim_C8_benign_skips (w : World) (node : Node)
    (bps : List BaremetalPort) (nets : List Network) (net : Network)
    (rest : List Network) :
    (∀ bp v rest2, bp.tenant_vif_port_id = some v → find_port w v = none →
      currently_attached_networks w (bp :: rest2) nets =
        currently_attached_networks w rest2 nets) ∧
    (∀ bp v np rest2, bp.tenant_vif_port_id = some v →
      find_port w v = some np →
      nets.find? (fun n => n.id = np.network_id) = none →
      currently_attached_networks w (bp :: rest2) nets =
        currently_attached_networks w rest2 nets) ∧
    (find_network_port w node.name net.name = none →
      detachLoop node bps w (net :: rest) = detachLoop node bps w rest) ∧
    (∀ np, find_network_port w node.name net.name = some np →
      find_matching_baremetal_port bps np = none →
      detachLoop node bps w (net :: rest) = detachLoop node bps w rest ∧
      ((w.networkPorts.map NetworkPort.id).Nodup →
        np ∈ (detachLoop node bps w (net :: rest)).1.networkPorts)) := by
  refine ⟨?_, ?_, ?_, ?_⟩
  · intro bp v rest2 hv hp
    unfold currently_attached_networks
    rw [List.filterMap_cons]
    simp only [hv, hp]
  · intro bp v np rest2 hv hp hn
    unfold currently_attached_networks
    rw [List.filterMap_cons]
    simp only [hv, hp, hn]
  · intro hfind
    simp [detachLoop, hfind]
  · intro np hfind hmatch
    refine ⟨by simp [detachLoop, hfind, hmatch], ?_⟩
    intro hnodup
    rw [show detachLoop node bps w (net :: rest) =
        detachLoop node bps w rest by simp [detachLoop, hfind, hmatch]]
    exact detachLoop_preserves_uncarried node bps rest w np
      (find_network_port_mem hfind).1 hnodup hmatch

/-- Witness world for the benign-skip claims: a dangling VIF reference, an
orphaned network id, and an uncarried deterministically named port. -/
def W8 : World :=
  ⟨[Wnode], [WnetA], [⟨0, "n-A", "na"⟩, ⟨1, "n-B", "zz"⟩],
    [⟨"b1", "nid", some 9⟩], 2⟩

theorem claim_C8_benign_skips_witness :
    (∀ bp v rest2, bp.tenant_vif_port_id = some v →
      find_port W8 v = none →
      currently_attached_networks W8 (bp :: rest2) W8.networks =
        currently_attached_networks W8 rest2 W8.networks) ∧
    (∀ bp v np rest2, bp.tenant_vif_port_id = some v →
      find_port W8 v = some np →
      W8.networks.find? (fun n => n.id = np.network_id) = none →
      currently_attached_networks W8 (bp :: rest2) W8.networks =
        currently_attached_networks W8 rest2 W8.networks) ∧
    (find_network_port W8 Wnode.name WnetA.name = none →
      detachLoop Wnode W8.baremetalPorts W8 (WnetA :: []) =
        detachLoop Wnode W8.baremetalPorts W8 []) ∧
    (∀ np, find_network_port W8 Wnode.name WnetA.name = some np →
      find_matching_baremetal_port W8.baremetalPorts np = none →
      detachLoop Wnode W8.baremetalPorts W8 (WnetA :: []) =
        detachLoop Wnode W8.baremetalPorts W8 [] ∧
      ((W8.networkPorts.map NetworkPort.id).Nodup →
        np ∈ (detachLoop Wnode W8.baremetalPorts W8
          (WnetA :: [])).1.networkPorts)) :=
  claim_C8_benign_skips W8 Wnode W8.baremetalPorts W8.networks WnetA []

theorem detachLoop_pairs (node : Node) (bps : List BaremetalPort) :
    ∀ (L : List Network) (w : World),
    ∃ pairs : List (Network × List Event),
      pairs.map Prod.fst = L ∧
      (detachLoop node bps w L).2.2 = (pairs.map Prod.snd).flatten ∧
      ∀ pr ∈ pairs, pr.2 = [] ∨
        ∃ v, pr.2 = [Event.detachVifCall node.id v,
                     Event.deletePortCall v] := by
  intro L
  induction L with
  | nil =>
    intro w
    exact ⟨[], rfl, rfl, by simp⟩
  | cons net L ih =>
    intro w
    cases hfind : find_network_port w node.name net.name with
    | none =>
      obtain ⟨pairs, h1, h2, h3⟩ := ih w
      refine ⟨(net, []) :: pairs, by simp [h1], ?_, ?_⟩
      · simp only [detachLoop, hfind]
        simpa using h2
      · intro pr hpr
        rcases List.mem_cons.mp hpr with rfl | hpr
        · exact Or.inl rfl
        · exact h3 pr hpr
    | some np =>
      cases hmatch : find_matching_baremetal_port bps np with
      | none =>
        obtain ⟨pairs, h1, h2, h3⟩ := ih w
        refine ⟨(net, []) :: pairs, by simp [h1], ?_, ?_⟩
        · simp only [detachLoop, hfind, hmatch]
          simpa using h2
        · intro pr hpr
          rcases List.mem_cons.mp hpr with rfl | hpr
          · exact Or.inl rfl
          · exact h3 pr hpr
      | some bp0 =>
        obtain ⟨pairs, h1, h2, h3⟩ :=
          ih (delete_port (detach_vif w node.id np.id) np.id)
        refine ⟨(net, [Event.detachVifCall node.id np.id,
          Event.deletePortCall np.id]) :: pairs, by simp [h1], ?_, ?_⟩
        · simp only [detachLoop, hfind, hmatch]
          simpa using h2
        · intro pr hpr
          rcases List.mem_cons.mp hpr with rfl | hpr
          · exact Or.inr ⟨np.id, rfl⟩
          · exact h3 pr hpr

/-- Shape of the call block one attach iteration contributes for its
network: nothing (skip), a bare attach, a bare create (create followed by
the already-carried skip), or a create followed by the attach of the
freshly created port. -/
def attachBlockShape (node : Node) (net : Network) (b : List Event) : Prop :=
  b = [] ∨
  (∃ v bpid, b = [Event.attachVifCall node.id v bpid]) ∨
  (∃ pid, b = [Event.createPortCall pid (portName node.name net.name)
    net.id]) ∨
  (∃ pid bpid, b =
    [Event.createPortCall pid (portName node.name net.name) net.id,
     Event.attachVifCall node.id pid bpid])

theorem attachLoop_pairs_ok (node : Node) :
    ∀ (L : List Network) (w : World) (wf : World) (ch : Bool)
      (tr : List Event),
    attachLoop node w L = .ok wf ch tr →
    ∃ pairs : List (Network × List Event),
      pairs.map Prod.fst = L ∧
      tr = (pairs.map Prod.snd).flatten ∧
      ∀ pr ∈ pairs, attachBlockShape node pr.1 pr.2 := by
  intro L
  induction L with
  | nil =>
    intro w wf ch tr h
    simp only [attachLoop] at h
    cases h
    exact ⟨[], rfl, rfl, by simp⟩
  | cons net L ih =>
    intro w wf ch tr h
    cases hfind : find_network_port w node.name net.name with
    | some np =>
      cases hmatch : find_matching_baremetal_port
          (baremetalPortsOf w node.id) np with
      | some bp1 =>
        simp only [attachLoop, hfind, hmatch] at h
        obtain ⟨pairs, h1, h2, h3⟩ := ih w wf ch tr h
        refine ⟨(net, []) :: pairs, by simp [h1], by simpa using h2, ?_⟩
        intro pr hpr
        rcases List.mem_cons.mp hpr with rfl | hpr
        · exact Or.inl rfl
        · exact h3 pr hpr
      | none =>
        cases hfree : find_free_baremetal_port (baremetalPortsOf w node.id)
          with
        | none =>
          simp only [attachLoop, hfind, hmatch, hfree] at h
          exact AttachResult.noConfusion h
        | some bp =>
          simp only [attachLoop, hfind, hmatch, hfree] at h
          cases hrec : attachLoop node (attach_vif w node.id np.id bp.id) L
            with
          | exhausted a b wf2 tr2 =>
            rw [hrec] at h
            exact AttachResult.noConfusion h
          | ok wf2 ch2 tr2 =>
            rw [hrec] at h
            cases h
            obtain ⟨pairs, h1, h2, h3⟩ := ih _ _ _ _ hrec
            refine ⟨(net, [Event.attachVifCall node.id np.id bp.id]) :: pairs,
              by simp [h1], by simpa using h2, ?_⟩
            intro pr hpr
            rcases List.mem_cons.mp hpr with rfl | hpr
            · exact Or.inr (Or.inl ⟨np.id, bp.id, rfl⟩)
            · exact h3 pr hpr
    | none =>
      cases hmatch : find_matching_baremetal_port (baremetalPortsOf w node.id)
          (create_port w (portName node.name net.name) net.id).1 with
      | some bp1 =>
        simp only [attachLoop, hfind, hmatch] at h
        cases hrec : attachLoop node
            (create_port w (portName node.name net.name) net.id).2 L with
        | exhausted a b wf2 tr2 =>
          rw [hrec] at h
          exact AttachResult.noConfusion h
        | ok wf2 ch2 tr2 =>
          rw [hrec] at h
          cases h
          obtain ⟨pairs, h1, h2, h3⟩ := ih _ _ _ _ hrec
          refine ⟨(net, [Event.createPortCall w.nextPortId
            (portName node.name net.name) net.id]) :: pairs,
            by simp [h1], by simpa [create_port_fst] using h2, ?_⟩
          intro pr hpr
          rcases List.mem_cons.mp hpr with rfl | hpr
          · exact Or.inr (Or.inr (Or.inl ⟨w.nextPortId, rfl⟩))
          · exact h3 pr hpr
      | none =>
        cases hfree : find_free_baremetal_port (baremetalPortsOf w node.id)
          with
        | none =>
          simp only [attachLoop, hfind, hmatch, hfree] at h
          exact AttachResult.noConfusion h
        | some bp =>
          simp only [attachLoop, hfind, hmatch, hfree] at h
          cases hrec : attachLoop node
              (attach_vif (create_port w (portName node.name net.name)
                net.id).2 node.id
                (create_port w (portName node.name net.name) net.id).1.id
                bp.id) L with
          | exhausted a b wf2 tr2 =>
            rw [hrec] at h
            exact AttachResult.noConfusion h
          | ok wf2 ch2 tr2 =>
            rw [hrec] at h
            cases h
            obtain ⟨pairs, h1, h2, h3⟩ := ih _ _ _ _ hrec
            refine ⟨(net, [Event.createPortCall w.nextPortId
              (portName node.name net.name) net.id,
              Event.attachVifCall node.id w.nextPortId bp.id]) :: pairs,
              by simp [h1], by simpa [create_port_fst] using h2, ?_⟩
            intro pr hpr
            rcases List.mem_cons.mp hpr with rfl | hpr
            · exact Or.inr (Or.inr (Or.inr ⟨w.nextPortId, bp.id, rfl⟩))
            · exact h3 pr hpr

/-- Counterexample world for C6 as stated: networks are discovered in the
order A, B, but the node's physical ports carry B's port before A's port,
so the detach to-do list and the detach call order are B before A. -/
def W6 : World :=
  ⟨[Wnode], [WnetA, WnetB], [⟨0, "n-A", "na"⟩, ⟨1, "n-B", "nb"⟩],
    [⟨"b1", "nid", some 1⟩, ⟨"b2", "nid", some 0⟩], 2⟩

/-- The world left behind by the W6 run with an empty desired list. -/
def W6e : World :=
  ⟨[Wnode], [WnetA, WnetB], [],
    [⟨"b1", "nid", none⟩, ⟨"b2", "nid", none⟩], 2⟩

/-- C6 as stated is false: in the well-formed world W6 the detach to-do
list is [B, A], not the network discovery order [A, B], and the run's
detach calls process B's port (id 1) before A's port (id 0). -/
theorem claim_C6_counterexample :
    Inv W6 Wnode ∧
    W6.networks = [WnetA, WnetB] ∧
    toDetachOf W6 Wnode [] = [WnetB, WnetA] ∧
    toDetachOf W6 Wnode [] ≠ [WnetA, WnetB] ∧
    run W6 "n" (some []) = .ok true W6e
      [Event.detachVifCall "nid" 1, Event.deletePortCall 1,
       Event.detachVifCall "nid" 0, Event.deletePortCall 0] := by
  refine ⟨by decide, rfl, by decide, by decide, by decide⟩

theorem attachLoop_pairs_exhausted (node : Node) :
    ∀ (L : List Network) (w : World) (nid nn : String) (wx : World)
      (trx : List Event),
    attachLoop node w L = .exhausted nid nn wx trx →
    ∃ pairs : List (Network × List Event), ∃ Lrest : List Network,
      pairs.map Prod.fst ++ Lrest = L ∧
      trx = (pairs.map Prod.snd).flatten ∧
      ∀ pr ∈ pairs, attachBlockShape node pr.1 pr.2 := by
  intro L
  induction L with
  | nil =>
    intro w nid nn wx trx h
    simp only [attachLoop] at h
    exact AttachResult.noConfusion h
  | cons net L ih =>
    intro w nid nn wx trx h
    cases hfind : find_network_port w node.name net.name with
    | some np =>
      cases hmatch : find_matching_baremetal_port
          (baremetalPortsOf w node.id) np with
      | some bp1 =>
        simp only [attachLoop, hfind, hmatch] at h
        obtain ⟨pairs, Lrest, h1, h2, h3⟩ := ih w nid nn wx trx h
        refine ⟨(net, []) :: pairs, Lrest, by simp [h1], by simpa using h2,
          ?_⟩
        intro pr hpr
        rcases List.mem_cons.mp hpr with rfl | hpr
        · exact Or.inl rfl
        · exact h3 pr hpr
      | none =>
        cases hfree : find_free_baremetal_port (baremetalPortsOf w node.id)
          with
        | none =>
          simp only [attachLoop, hfind, hmatch, hfree] at h
          injection h with e1 e2 e3 e4
          refine ⟨[], net :: L, rfl, ?_, by simp⟩
          rw [← e4]
          rfl
        | some bp =>
          simp only [attachLoop, hfind, hmatch, hfree] at h
          cases hrec : attachLoop node (attach_vif w node.id np.id bp.id) L
            with
          | ok wf2 ch2 tr2 =>
            rw [hrec] at h
            exact AttachResult.noConfusion h
          | exhausted a b wf2 tr2 =>
            rw [hrec] at h
            injection h with e1 e2 e3 e4
            obtain ⟨pairs, Lrest, h1, h2, h3⟩ := ih _ a b wf2 tr2 hrec
            refine ⟨(net, [Event.attachVifCall node.id np.id bp.id]) :: pairs,
              Lrest, by simp [h1], ?_, ?_⟩
            · rw [← e4, h2]
              rfl
            · intro pr hpr
              rcases List.mem_cons.mp hpr with rfl | hpr
              · exact Or.inr (Or.inl ⟨np.id, bp.id, rfl⟩)
              · exact h3 pr hpr
    | none =>
      cases hmatch : find_matching_baremetal_port (baremetalPortsOf w node.id)
          (create_port w (portName node.name net.name) net.id).1 with
      | some bp1 =>
        simp only [attachLoop, hfind, hmatch] at h
        cases hrec : attachLoop node
            (create_port w (portName node.name net.name) net.id).2 L with
        | ok wf2 ch2 tr2 =>
          rw [hrec] at h
          exact AttachResult.noConfusion h
        | exhausted a b wf2 tr2 =>
          rw [hrec] at h
          injection h with e1 e2 e3 e4
          obtain ⟨pairs, Lrest, h1, h2, h3⟩ := ih _ a b wf2 tr2 hrec
          refine ⟨(net, [Event.createPortCall w.nextPortId
            (portName node.name net.name) net.id]) :: pairs, Lrest,
            by simp [h1], ?_, ?_⟩
          · rw [← e4, h2]
            simp [create_port_fst]
          · intro pr hpr
            rcases List.mem_cons.mp hpr with rfl | hpr
            · exact Or.inr (Or.inr (Or.inl ⟨w.nextPortId, rfl⟩))
            · exact h3 pr hpr
      | none =>
        cases hfree : find_free_baremetal_port (baremetalPortsOf w node.id)
          with
        | none =>
          simp only [attachLoop, hfind, hmatch, hfree] at h
          injection h with e1 e2 e3 e4
          refine ⟨[(net, [Event.createPortCall w.nextPortId
            (portName node.name net.name) net.id])], L, by simp, ?_, ?_⟩
          · rw [← e4]
            simp [create_port_fst]
          · intro pr hpr
            rcases List.mem_cons.mp hpr with rfl | hpr
            · exact Or.inr (Or.inr (Or.inl ⟨w.nextPortId, rfl⟩))
            · simp at hpr
        | some bp =>
          simp only [attachLoop, hfind, hmatch, hfree] at h
          cases hrec : attachLoop node (attach_vif
              (create_port w (portName node.name net.name) net.id).2 node.id
              (create_port w (portName node.name net.name) net.id).1.id
              bp.id) L with
          | ok wf2 ch2 tr2 =>
            rw [hrec] at h
            exact AttachResult.noConfusion h
          | exhausted a b wf2 tr2 =>
            rw [hrec] at h
            injection h with e1 e2 e3 e4
            obtain ⟨pairs, Lrest, h1, h2, h3⟩ := ih _ a b wf2 tr2 hrec
            refine ⟨(net, [Event.createPortCall w.nextPortId
              (portName node.name net.name) net.id,
              Event.attachVifCall node.id w.nextPortId bp.id]) :: pairs,
              Lrest, by simp [h1], ?_, ?_⟩
            · rw [← e4, h2]
              simp [create_port_fst]
            · intro pr hpr
              rcases List.mem_cons.mp hpr with rfl | hpr
              · exact Or.inr (Or.inr (Or.inr ⟨w.nextPortId, bp.id, rfl⟩))
              · exact h3 pr hpr

/-- C6 (amended): in every run that resolves the node — successful or
stopped by port exhaustion — the detach-phase calls all precede the
attach-phase calls; the detach calls are the in-order concatenation of
per-network blocks following the to-detach list, whose order is the
derivation order over the node's physical ports; the attach calls are the
in-order concatenation of per-network blocks following the to-attach list
(of which an exhausted run realises a prefix), which is a sublist of
(hence follows) the network discovery order. -/
theorem claim_C6_phase_order {w : World} {ref : String}
    {p : Option (List String)} {node : Node}
    (hnode : find_node w ref = some node) :
    (∀ ch w' tr, run w ref p = .ok ch w' tr →
      ∃ dtr atr, tr = dtr ++ atr ∧
        (∀ e ∈ dtr, isDetachPhaseCall e = true) ∧
        (∀ e ∈ atr, isAttachPhaseCall e = true) ∧
        (∃ pairs : List (Network × List Event),
          pairs.map Prod.fst = toDetachOf w node (p.getD []) ∧
          dtr = (pairs.map Prod.snd).flatten ∧
          ∀ pr ∈ pairs, pr.2 = [] ∨ ∃ v,
            pr.2 = [Event.detachVifCall node.id v,
                    Event.deletePortCall v]) ∧
        (∃ pairs : List (Network × List Event),
          pairs.map Prod.fst = toAttachOf w node (p.getD []) ∧
          atr = (pairs.map Prod.snd).flatten ∧
          ∀ pr ∈ pairs, attachBlockShape node pr.1 pr.2) ∧
        (toAttachOf w node (p.getD [])).Sublist w.networks) ∧
    (∀ nid nn w' tr, run w ref p = .exhausted nid nn w' tr →
      ∃ dtr atr, tr = dtr ++ atr ∧
        (∀ e ∈ dtr, isDetachPhaseCall e = true) ∧
        (∀ e ∈ atr, isAttachPhaseCall e = true) ∧
        (∃ pairs : List (Network × List Event),
          pairs.map Prod.fst = toDetachOf w node (p.getD []) ∧
          dtr = (pairs.map Prod.snd).flatten ∧
          ∀ pr ∈ pairs, pr.2 = [] ∨ ∃ v,
            pr.2 = [Event.detachVifCall node.id v,
                    Event.deletePortCall v]) ∧
        (∃ pairs : List (Network × List Event), ∃ Lrest : List Network,
          pairs.map Prod.fst ++ Lrest = toAttachOf w node (p.getD []) ∧
          atr = (pairs.map Prod.snd).flatten ∧
          ∀ pr ∈ pairs, attachBlockShape node pr.1 pr.2) ∧
        (toAttachOf w node (p.getD [])).Sublist w.networks) := by
  constructor
  · intro ch w' tr hrun
    rw [run_eq_some hnode] at hrun
    cases hatt : attachLoop node
        (detachLoop node (baremetalPortsOf w node.id) w
          (toDetachOf w node (p.getD []))).1
        (toAttachOf w node (p.getD [])) with
    | exhausted a b w2 tr2 =>
      simp only [hatt] at hrun
      exact RunResult.noConfusion hrun
    | ok w2 ch2 tr2 =>
      simp only [hatt] at hrun
      injection hrun with hch hw htr
      refine ⟨(detachLoop node (baremetalPortsOf w node.id) w
        (toDetachOf w node (p.getD []))).2.2, tr2, htr.symm, ?_, ?_, ?_, ?_,
        ?_⟩
      · exact detachLoop_trace_kinds node (baremetalPortsOf w node.id)
          (toDetachOf w node (p.getD [])) w
      · intro e he
        have hk := attachLoop_trace_kinds node
          (toAttachOf w node (p.getD []))
          (detachLoop node (baremetalPortsOf w node.id) w
            (toDetachOf w node (p.getD []))).1 e
        rw [hatt] at hk
        exact hk he
      · exact detachLoop_pairs node (baremetalPortsOf w node.id)
          (toDetachOf w node (p.getD [])) w
      · exact attachLoop_pairs_ok node (toAttachOf w node (p.getD [])) _ w2
          ch2 tr2 hatt
      · unfold toAttachOf desiredObjsOf
        exact (List.filter_sublist _).trans (List.filter_sublist _)
  · intro nid nn w' tr hrun
    rw [run_eq_some hnode] at hrun
    cases hatt : attachLoop node
        (detachLoop node (baremetalPortsOf w node.id) w
          (toDetachOf w node (p.getD []))).1
        (toAttachOf w node (p.getD [])) with
    | ok w2 ch2 tr2 =>
      simp only [hatt] at hrun
      exact RunResult.noConfusion hrun
    | exhausted a b w2 tr2 =>
      simp only [hatt] at hrun
      injection hrun with e1 e2 e3 e4
      refine ⟨(detachLoop node (baremetalPortsOf w node.id) w
        (toDetachOf w node (p.getD []))).2.2, tr2, e4.symm, ?_, ?_, ?_, ?_,
        ?_⟩
      · exact detachLoop_trace_kinds node (baremetalPortsOf w node.id)
          (toDetachOf w node (p.getD [])) w
      · intro e he
        have hk := attachLoop_trace_kinds node
          (toAttachOf w node (p.getD []))
          (detachLoop node (baremetalPortsOf w node.id) w
            (toDetachOf w node (p.getD []))).1 e
        rw [hatt] at hk
        exact hk he
      · exact detachLoop_pairs node (baremetalPortsOf w node.id)
          (toDetachOf w node (p.getD [])) w
      · exact attachLoop_pairs_exhausted node (toAttachOf w node (p.getD []))
          _ a b w2 tr2 hatt
      · unfold toAttachOf desiredObjsOf
        exact (List.filter_sublist _).trans (List.filter_sublist _)

theorem claim_C6_phase_order_witness :
    (∀ ch w' tr, run W6 "n" (some []) = .ok ch w' tr →
      ∃ dtr atr, tr = dtr ++ atr ∧
        (∀ e ∈ dtr, isDetachPhaseCall e = true) ∧
        (∀ e ∈ atr, isAttachPhaseCall e = true) ∧
        (∃ pairs : List (Network × List Event),
          pairs.map Prod.fst = toDetachOf W6 Wnode ((some []).getD []) ∧
          dtr = (pairs.map Prod.snd).flatten ∧
          ∀ pr ∈ pairs, pr.2 = [] ∨ ∃ v,
            pr.2 = [Event.detachVifCall Wnode.id v,
                    Event.deletePortCall v]) ∧
        (∃ pairs : List (Network × List Event),
          pairs.map Prod.fst = toAttachOf W6 Wnode ((some []).getD []) ∧
          atr = (pairs.map Prod.snd).flatten ∧
          ∀ pr ∈ pairs, attachBlockShape Wnode pr.1 pr.2) ∧
        (toAttachOf W6 Wnode ((some []).getD [])).Sublist W6.networks) ∧
    (∀ nid nn w' tr, run W6 "n" (some []) = .exhausted nid nn w' tr →
      ∃ dtr atr, tr = dtr ++ atr ∧
        (∀ e ∈ dtr, isDetachPhaseCall e = true) ∧
        (∀ e ∈ atr, isAttachPhaseCall e = true) ∧
        (∃ pairs : List (Network × List Event),
          pairs.map Prod.fst = toDetachOf W6 Wnode ((some []).getD []) ∧
          dtr = (pairs.map Prod.snd).flatten ∧
          ∀ pr ∈ pairs, pr.2 = [] ∨ ∃ v,
            pr.2 = [Event.detachVifCall Wnode.id v,
                    Event.deletePortCall v]) ∧
        (∃ pairs : List (Network × List Event), ∃ Lrest : List Network,
          pairs.map Prod.fst ++ Lrest =
            toAttachOf W6 Wnode ((some []).getD []) ∧
          atr = (pairs.map Prod.snd).flatten ∧
          ∀ pr ∈ pairs, attachBlockShape Wnode pr.1 pr.2) ∧
        (toAttachOf W6 Wnode ((some []).getD [])).Sublist W6.networks) :=
  @claim_C6_phase_order W6 "n" (some []) Wnode (by decide)

end NodeNetwork
